import Mathlib

/-!
Chat relay server (`src/server/index.js`).

A shallow embedding of the socket.io event handlers of the chat server: the
user registry `users`, the typing set `typingUsers`, and one Lean function per
`socket.on(...)` handler.  A handler maps the server state, the id of the
socket it runs for and the event payload to the new state and the list of
outbound deliveries, or to the `TypeError` the JavaScript code throws.

Conventions of the embedding:

* JavaScript strings are lists of UTF-16 code units.
* Payloads are JSON-like values (`JSVal`); handlers receive them untyped, as
  the JavaScript code does.
* The transport (socket.io) is represented by the list `sockets` of connected
  socket ids, in connection order.  Every socket is a member of exactly the
  room named by its own id (the server never calls `socket.join`).
* `Date.now().toString() + Math.random()` and `new Date().toISOString()` are
  inputs of a handler run (`Clock`).
* `String.prototype.toUpperCase` is a parameter (`upper`) of the handlers
  that reach it.
* Keys of `users` are socket ids generated by the transport; they are taken
  not to be array indices nor names of `Object.prototype` properties, so that
  `users` behaves as an insertion-ordered map.
-/

namespace ChatApp

/-! ## JavaScript values -/

/-- A JavaScript string: its sequence of UTF-16 code units. -/
abbrev JSString := List Nat

/-- The id socket.io assigns to a connection (`socket.id`). -/
abbrev ConnId := JSString

/-- UTF-16 encoding of a Lean string, used to write string constants. -/
def utf16 (s : String) : JSString :=
  (s.toList.map fun c =>
    if c.toNat < 65536 then [c.toNat]
    else [55296 + (c.toNat - 65536) / 1024, 56320 + (c.toNat - 65536) % 1024]).flatten

/-- JSON-like values carried by event payloads. -/
inductive JSVal where
  | undefined : JSVal
  | null : JSVal
  | bool (b : Bool) : JSVal
  | num (n : Int) : JSVal
  | str (s : JSString) : JSVal
  | arr (items : List JSVal) : JSVal
  | obj (fields : List (JSString × JSVal)) : JSVal

/-- The exception a handler can throw. -/
inductive JSError where
  | typeError : JSError

/-- JavaScript truthiness (`ToBoolean`). -/
def JSVal.truthy : JSVal → Bool
  | .undefined => false
  | .null => false
  | .bool b => b
  | .num n => n != 0
  | .str s => !s.isEmpty
  | .arr _ => true
  | .obj _ => true

/-- Whether a value is `undefined` or `null`; destructuring such a value throws. -/
def JSVal.isNullish : JSVal → Bool
  | .undefined => true
  | .null => true
  | _ => false

/-- Property read `v[k]` for the payload field names used by the handlers.
Objects are searched by key; other non-nullish values have none of these
properties. -/
def JSVal.prop : JSVal → JSString → JSVal
  | .obj fields, k => (fields.lookup k).getD .undefined
  | _, _ => .undefined

/-- ECMAScript `WhiteSpace` and `LineTerminator` code units, the ones
`String.prototype.trim` strips. -/
def isWhiteSpace (c : Nat) : Bool :=
  c == 9 || c == 10 || c == 11 || c == 12 || c == 13 || c == 32 || c == 160 ||
  c == 5760 || (8192 ≤ c && c ≤ 8202) || c == 8232 || c == 8233 || c == 8239 ||
  c == 8287 || c == 12288 || c == 65279

/-- `String.prototype.trim` on code units. -/
def trim (s : JSString) : JSString :=
  ((s.dropWhile isWhiteSpace).reverse.dropWhile isWhiteSpace).reverse

/-- The method call `text.trim()` on an arbitrary payload value: only strings
have a callable `trim`. -/
def callTrim : JSVal → Except JSError JSString
  | .str s => .ok (trim s)
  | _ => .error .typeError

/-! ## Data model -/

/-- The avatar record built by `getRandomAvatar`. -/
structure Avatar where
  initial : JSString
  color : JSVal

/-- The palette `colors` of `getRandomAvatar`. -/
def colors : List JSString :=
  [utf16 "#FF6B6B", utf16 "#4ECDC4", utf16 "#45B7D1", utf16 "#FFA07A", utf16 "#98D8C8",
   utf16 "#F7DC6F", utf16 "#BB8FCE", utf16 "#85C1E2", utf16 "#F8B739", utf16 "#52B788"]

/-- The function `getRandomAvatar(name)`.  `name.charAt(0)` throws unless `name` is a
string; `charCodeAt(0)` of the empty string is `NaN`, and `colors[NaN]` is
`undefined`. -/
def getRandomAvatar (upper : JSString → JSString) : JSVal → Except JSError Avatar
  | .str name =>
    let initial := upper (name.take 1)
    let color : JSVal :=
      match name.head? with
      | some code => ((colors.get? (code % colors.length)).map JSVal.str).getD .undefined
      | none => .undefined
    .ok { initial := initial, color := color }
  | _ => .error .typeError

/-- A value of the `users` registry (the object stored by the `join` handler). -/
structure Session where
  id : ConnId
  name : JSVal
  deviceKey : JSVal
  avatar : Avatar
  online : Bool

/-- The message object built by the `message` and `dm` handlers. -/
structure Message where
  id : JSString
  text : JSVal
  sender : JSVal
  senderId : JSVal
  avatar : Avatar
  timestamp : JSString

/-- The values the clock and the random generator give during one handler run:
`Date.now().toString() + Math.random()` and `new Date().toISOString()`. -/
structure Clock where
  id : JSString
  timestamp : JSString

/-- Events the server emits. -/
inductive OutEvent where
  | users (list : List Session) : OutEvent
  | message (msg : Message) : OutEvent
  | dm (fromId : JSVal) (msg : Message) : OutEvent
  | userTyping (userId : ConnId) (userName : JSVal) (isTyping : JSVal) : OutEvent
  | callOffer (fromId : ConnId) (fromName : JSVal) (offer : JSVal) : OutEvent
  | callAnswer (answer : JSVal) : OutEvent
  | iceCandidate (candidate : JSVal) : OutEvent
  | callEnded : OutEvent

/-- One outbound event received by one connected socket. -/
structure Delivery where
  dest : ConnId
  event : OutEvent

/-- Events a socket sends to the server, with the transport events `connect` and
`disconnect`. -/
inductive Event where
  | connect : Event
  | join (payload : JSVal) : Event
  | message (payload : JSVal) : Event
  | dm (payload : JSVal) : Event
  | typing (payload : JSVal) : Event
  | callOffer (payload : JSVal) : Event
  | callAnswer (payload : JSVal) : Event
  | iceCandidate (payload : JSVal) : Event
  | callEnded (payload : JSVal) : Event
  | disconnect : Event

/-- An inbound event: the socket it arrives on, the event and the clock values of
the handler run. -/
structure Inbound where
  socket : ConnId
  event : Event
  clock : Clock

/-- The server state: connected sockets (transport), `users` and `typingUsers`. -/
structure ServerState where
  sockets : List ConnId
  users : List (ConnId × Session)
  typingUsers : List ConnId

/-! ## The registry `users` and the set `typingUsers` -/

/-- The lookup `users[id]`. -/
def usersGet (users : List (ConnId × Session)) (id : ConnId) : Option Session :=
  users.lookup id

/-- The assignment `users[id] = v`: an existing key keeps its position, a new key goes last. -/
def usersSet : List (ConnId × Session) → ConnId → Session → List (ConnId × Session)
  | [], id, v => [(id, v)]
  | (k, w) :: rest, id, v =>
    if k = id then (id, v) :: rest else (k, w) :: usersSet rest id v

/-- The statement `delete users[id]`. -/
def usersDelete (users : List (ConnId × Session)) (id : ConnId) : List (ConnId × Session) :=
  users.filter fun kv => kv.1 != id

/-- The snapshot `Object.values(users)`. -/
def objectValues (users : List (ConnId × Session)) : List Session :=
  users.map Prod.snd

/-- The call `typingUsers.add(id)`. -/
def setAdd (set : List ConnId) (id : ConnId) : List ConnId :=
  if id ∈ set then set else set ++ [id]

/-- The call `typingUsers.delete(id)`. -/
def setDelete (set : List ConnId) (id : ConnId) : List ConnId :=
  set.filter fun x => x != id

/-! ## Emit primitives -/

/-- The call `io.emit(ev)`: every connected socket receives the event. -/
def ioEmit (sockets : List ConnId) (ev : OutEvent) : List Delivery :=
  sockets.map fun c => { dest := c, event := ev }

/-- Whether a room list (the array argument of `io.to`) names the room `c`. -/
def namesRoom (rooms : List JSVal) (c : ConnId) : Bool :=
  rooms.any fun r =>
    match r with
    | .str s => s == c
    | _ => false

/-- The sockets selected by `io.to(room)`: a string names one room, an array names
each of its rooms and the empty array selects no room, which socket.io treats as
a broadcast to all; any other value names a room without members. -/
def roomTargets (sockets : List ConnId) : JSVal → List ConnId
  | .str r => sockets.filter fun c => c == r
  | .arr [] => sockets
  | .arr rooms => sockets.filter fun c => namesRoom rooms c
  | _ => []

/-- The call `io.to(room).emit(ev)`. -/
def ioToEmit (sockets : List ConnId) (room : JSVal) (ev : OutEvent) : List Delivery :=
  (roomTargets sockets room).map fun c => { dest := c, event := ev }

/-- The call `socket.emit(ev)`: only the socket the handler runs for receives it. -/
def socketEmit (sid : ConnId) (ev : OutEvent) : List Delivery :=
  [{ dest := sid, event := ev }]

/-- The call `socket.broadcast.emit(ev)`: every connected socket but the sender. -/
def socketBroadcastEmit (sockets : List ConnId) (sid : ConnId) (ev : OutEvent) : List Delivery :=
  (sockets.filter fun c => c != sid).map fun c => { dest := c, event := ev }

/-! ## Event handlers -/

/-- Result of a handler run: the new state and the deliveries, or the exception thrown. -/
abbrev Outcome := Except JSError (ServerState × List Delivery)

/-- Handler `socket.on('join', ...)`: the parameter pattern destructures the payload,
`getRandomAvatar(username)` runs before the registry is written. -/
def onJoin (upper : JSString → JSString) (s : ServerState) (sid : ConnId)
    (payload : JSVal) : Outcome :=
  if payload.isNullish then .error .typeError
  else
    let deviceKey := payload.prop (utf16 "deviceKey")
    let username := payload.prop (utf16 "username")
    match getRandomAvatar upper username with
    | .error e => .error e
    | .ok avatarData =>
      let users := usersSet s.users sid
        { id := sid, name := username, deviceKey := deviceKey, avatar := avatarData,
          online := true }
      .ok ({ s with users := users }, ioEmit s.sockets (.users (objectValues users)))

/-- Handler `socket.on('message', ...)`: `user && text.trim()` does not evaluate
`text.trim()` when the sender has no session. -/
def onMessage (s : ServerState) (sid : ConnId) (clock : Clock) (text : JSVal) : Outcome :=
  match usersGet s.users sid with
  | none => .ok (s, [])
  | some user =>
    match callTrim text with
    | .error e => .error e
    | .ok trimmed =>
      if (JSVal.str trimmed).truthy then
        let message : Message :=
          { id := clock.id, text := text, sender := user.name, senderId := user.deviceKey,
            avatar := user.avatar, timestamp := clock.timestamp }
        .ok (s, ioEmit s.sockets (.message message))
      else .ok (s, [])

/-- Handler `socket.on('dm', ...)`: one delivery to the room `to`, then the echo to the
sender tagged with `to`. -/
def onDm (s : ServerState) (sid : ConnId) (clock : Clock) (payload : JSVal) : Outcome :=
  if payload.isNullish then .error .typeError
  else
    let toId := payload.prop (utf16 "to")
    let message := payload.prop (utf16 "message")
    match usersGet s.users sid with
    | none => .ok (s, [])
    | some sender =>
      match callTrim message with
      | .error e => .error e
      | .ok trimmed =>
        if (JSVal.str trimmed).truthy then
          let dmMessage : Message :=
            { id := clock.id, text := message, sender := sender.name,
              senderId := sender.deviceKey, avatar := sender.avatar,
              timestamp := clock.timestamp }
          .ok (s, ioToEmit s.sockets toId (.dm (.str sid) dmMessage) ++
                  socketEmit sid (.dm toId { dmMessage with senderId := sender.deviceKey }))
        else .ok (s, [])

/-- Handler `socket.on('typing', ...)`. -/
def onTyping (s : ServerState) (sid : ConnId) (isTyping : JSVal) : Outcome :=
  match usersGet s.users sid with
  | none => .ok (s, [])
  | some user =>
    let typingUsers :=
      if isTyping.truthy then setAdd s.typingUsers sid else setDelete s.typingUsers sid
    .ok ({ s with typingUsers := typingUsers },
         socketBroadcastEmit s.sockets sid (.userTyping sid user.name isTyping))

/-- Handler `socket.on('call-offer', ...)`. -/
def onCallOffer (s : ServerState) (sid : ConnId) (payload : JSVal) : Outcome :=
  if payload.isNullish then .error .typeError
  else
    let toId := payload.prop (utf16 "to")
    let offer := payload.prop (utf16 "offer")
    match usersGet s.users sid with
    | none => .ok (s, [])
    | some caller => .ok (s, ioToEmit s.sockets toId (.callOffer sid caller.name offer))

/-- Handler `socket.on('call-answer', ...)`. -/
def onCallAnswer (s : ServerState) (payload : JSVal) : Outcome :=
  if payload.isNullish then .error .typeError
  else
    let toId := payload.prop (utf16 "to")
    let answer := payload.prop (utf16 "answer")
    .ok (s, ioToEmit s.sockets toId (.callAnswer answer))

/-- Handler `socket.on('ice-candidate', ...)`. -/
def onIceCandidate (s : ServerState) (payload : JSVal) : Outcome :=
  if payload.isNullish then .error .typeError
  else
    let toId := payload.prop (utf16 "to")
    let candidate := payload.prop (utf16 "candidate")
    .ok (s, ioToEmit s.sockets toId (.iceCandidate candidate))

/-- Handler `socket.on('call-ended', ...)`. -/
def onCallEnded (s : ServerState) (payload : JSVal) : Outcome :=
  if payload.isNullish then .error .typeError
  else
    let toId := payload.prop (utf16 "to")
    .ok (s, ioToEmit s.sockets toId .callEnded)

/-- Handler `socket.on('disconnect', ...)`, run on a state whose `sockets` no longer
holds the socket. -/
def onDisconnect (s : ServerState) (sid : ConnId) : Outcome :=
  let typingUsers := setDelete s.typingUsers sid
  let users := usersDelete s.users sid
  .ok ({ s with users := users, typingUsers := typingUsers },
       ioEmit s.sockets (.users (objectValues users)))

/-- The server reacting to one inbound event.  `connect` only registers the socket
with the transport (the connection callback installs the handlers and logs);
`disconnect` first removes the socket from the transport, then runs its handler. -/
def step (upper : JSString → JSString) (s : ServerState) (i : Inbound) : Outcome :=
  match i.event with
  | .connect => .ok ({ s with sockets := setAdd s.sockets i.socket }, [])
  | .join payload => onJoin upper s i.socket payload
  | .message payload => onMessage s i.socket i.clock payload
  | .dm payload => onDm s i.socket i.clock payload
  | .typing payload => onTyping s i.socket payload
  | .callOffer payload => onCallOffer s i.socket payload
  | .callAnswer payload => onCallAnswer s payload
  | .iceCandidate payload => onIceCandidate s payload
  | .callEnded payload => onCallEnded s payload
  | .disconnect =>
    onDisconnect { s with sockets := s.sockets.filter fun c => c != i.socket } i.socket

/-- The server processing a sequence of inbound events, one handler run after the other;
it yields the final state and the deliveries of each event, and stops at the first
exception. -/
def run (upper : JSString → JSString) :
    ServerState → List Inbound → Except JSError (ServerState × List (List Delivery))
  | s, [] => .ok (s, [])
  | s, i :: rest =>
    match step upper s i with
    | .error e => .error e
    | .ok (s1, out) =>
      match run upper s1 rest with
      | .error e => .error e
      | .ok (s2, outs) => .ok (s2, out :: outs)

/-- The state of a freshly started server. -/
def ServerState.init : ServerState :=
  { sockets := [], users := [], typingUsers := [] }

/-! ## Trace-level notions used by the specification -/

/-- A registry event with a payload the `join` handler accepts: a `join` whose payload is an
object-like value with a string `username`, or a `disconnect`; the transport event
`connect` that precedes a `join` is admitted too. -/
def isRegistryEvent (i : Inbound) : Bool :=
  match i.event with
  | .connect => true
  | .join payload =>
    !payload.isNullish &&
      (match payload.prop (utf16 "username") with
       | .str _ => true
       | _ => false)
  | .disconnect => true
  | _ => false

/-- Whether connection `c` counts as registered after the events of a trace, given
whether it did before: its last `join` or `disconnect` decides. -/
def joinedAfter (c : ConnId) : Bool → List Inbound → Bool
  | b, [] => b
  | b, i :: rest =>
    joinedAfter c
      (if i.socket = c then
        match i.event with
        | .join _ => true
        | .disconnect => false
        | _ => b
       else b) rest

/-- Whether connection `c` has joined and not since disconnected in a trace that starts
from the empty registry. -/
def joinedNow (tr : List Inbound) (c : ConnId) : Bool :=
  joinedAfter c false tr

/-- The connection ids in the snapshot `Object.values(users)`. -/
def snapshotIds (s : ServerState) : List ConnId :=
  (objectValues s.users).map Session.id

/-- The events a connection receives from a list of deliveries, in order. -/
def received (outs : List Delivery) (c : ConnId) : List OutEvent :=
  (outs.filter fun d => decide (d.dest = c)).map Delivery.event

/-- Whether an outbound event is a `users` presence broadcast. -/
def OutEvent.isUsers : OutEvent → Bool
  | .users _ => true
  | _ => false

/-- Whether an outbound event is a `call-ended` event. -/
def OutEvent.isCallEnded : OutEvent → Bool
  | .callEnded => true
  | _ => false

/-- The ids listed by each `users` broadcast among received events. -/
def usersPayloadIds : List OutEvent → List (List ConnId)
  | [] => []
  | .users list :: rest => list.map Session.id :: usersPayloadIds rest
  | _ :: rest => usersPayloadIds rest

/-- Whether a payload value is a string. -/
def JSVal.isString : JSVal → Bool
  | .str _ => true
  | _ => false

/-- The inbound events whose payload a handler cannot process: a `join`, `dm` or call
signal whose payload is `undefined` or `null`, a `join` whose `username` is not a string,
and a `message` or `dm` of a registered sender whose text is not a string.  The events
`connect`, `typing` and `disconnect` are never among them. -/
def payloadRejected (s : ServerState) (i : Inbound) : Bool :=
  match i.event with
  | .connect => false
  | .join p => p.isNullish || !(p.prop (utf16 "username")).isString
  | .message p => (usersGet s.users i.socket).isSome && !p.isString
  | .dm p =>
    p.isNullish || ((usersGet s.users i.socket).isSome && !(p.prop (utf16 "message")).isString)
  | .typing _ => false
  | .callOffer p => p.isNullish
  | .callAnswer p => p.isNullish
  | .iceCandidate p => p.isNullish
  | .callEnded p => p.isNullish
  | .disconnect => false

/-! ## Data of the concrete runs -/

/-- The ASCII part of `String.prototype.toUpperCase`, the instance of `upper` in the
concrete runs (whose names are ASCII). -/
def asciiUpper (s : JSString) : JSString :=
  s.map fun c => if 97 ≤ c ∧ c ≤ 122 then c - 32 else c

/-- The upper-case mapping of one Basic Latin or Latin-1 Supplement code unit (below 256),
after the Unicode case mappings `toUpperCase` applies: a-z and the accented small letters map
to their capitals 32 below, the micro sign to U+039C, y with diaeresis to U+0178 and sharp
s to the two units "SS"; any other unit is kept. -/
def latin1UpperUnit (c : Nat) : List Nat :=
  if 97 ≤ c ∧ c ≤ 122 then [c - 32]
  else if c = 181 then [924]
  else if c = 223 then [83, 83]
  else if (224 ≤ c ∧ c ≤ 246) ∨ (248 ≤ c ∧ c ≤ 254) then [c - 32]
  else if c = 255 then [376]
  else [c]

/-- `String.prototype.toUpperCase` on strings of code units below 256, a second instance
of `upper`; code units from 256 on are outside its range and are kept as they are. -/
def latin1Upper (s : JSString) : JSString :=
  (s.map latin1UpperUnit).flatten

/-- Connection id of the first client in the concrete runs. -/
def connA : ConnId := utf16 "sockA"

/-- Connection id of the second client in the concrete runs. -/
def connB : ConnId := utf16 "sockB"

/-- Connection id of a client that never connects in the concrete runs. -/
def connZ : ConnId := utf16 "sockZ"

/-- Clock values of the concrete runs. -/
def clock0 : Clock :=
  { id := utf16 "17000000000000.25", timestamp := utf16 "2023-11-14T22:13:20.000Z" }

/-- An inbound event of the concrete runs. -/
def inbound (c : ConnId) (e : Event) : Inbound :=
  { socket := c, event := e, clock := clock0 }

/-- The `join` payload a client sends. -/
def joinPayload (deviceKey username : String) : JSVal :=
  .obj [(utf16 "deviceKey", .str (utf16 deviceKey)), (utf16 "username", .str (utf16 username))]

/-- The `dm` payload a client sends. -/
def dmPayload (toId : ConnId) (message : String) : JSVal :=
  .obj [(utf16 "to", .str toId), (utf16 "message", .str (utf16 message))]

/-- The `call-offer` payload a client sends; the offer is the session description object. -/
def offerPayload (toId : ConnId) : JSVal :=
  .obj [(utf16 "to", .str toId),
        (utf16 "offer", .obj [(utf16 "type", .str (utf16 "offer")), (utf16 "sdp", .str (utf16 "v=0"))])]

/-- The `call-answer` payload a client sends. -/
def answerPayload (toId : ConnId) : JSVal :=
  .obj [(utf16 "to", .str toId),
        (utf16 "answer", .obj [(utf16 "type", .str (utf16 "answer")), (utf16 "sdp", .str (utf16 "v=0"))])]

/-- Clients A and B connect and join in turn, as the client code does on `connect`. -/
def twoJoined : List Inbound :=
  [inbound connA .connect, inbound connA (.join (joinPayload "k1" "Alice")),
   inbound connB .connect, inbound connB (.join (joinPayload "k2" "Bob"))]

/-- The session the `join` handler stores for client A in the concrete runs. -/
def sessionA : Session :=
  { id := connA, name := .str (utf16 "Alice"), deviceKey := .str (utf16 "k1"),
    avatar := { initial := utf16 "A", color := .str (utf16 "#F7DC6F") }, online := true }

/-- The session the `join` handler stores for client B in the concrete runs. -/
def sessionB : Session :=
  { id := connB, name := .str (utf16 "Bob"), deviceKey := .str (utf16 "k2"),
    avatar := { initial := utf16 "B", color := .str (utf16 "#BB8FCE") }, online := true }

/-- The server state once clients A and B have connected and joined. -/
def stateAB : ServerState :=
  { sockets := [connA, connB], users := [(connA, sessionA), (connB, sessionB)],
    typingUsers := [] }

/-! ## Lemmas on the registry -/

theorem countP_eq_of_nodup (l : List ConnId) (c : ConnId) (h : l.Nodup) :
    l.countP (fun x => decide (x = c)) = if c ∈ l then 1 else 0 := by
  induction l with
  | nil => simp
  | cons a rest ih =>
    simp only [List.nodup_cons] at h
    by_cases hac : a = c
    · subst hac
      simp [List.countP_cons, ih h.2, h.1]
    · have hca : ¬ c = a := fun e => hac e.symm
      simp [List.countP_cons, ih h.2, hac, hca]

theorem usersSet_keys_mem (u : List (ConnId × Session)) (k : ConnId) (v : Session) (c : ConnId) :
    c ∈ (usersSet u k v).map Prod.fst ↔ c = k ∨ c ∈ u.map Prod.fst := by
  induction u with
  | nil => simp [usersSet]
  | cons kv rest ih =>
    obtain ⟨k0, w⟩ := kv
    by_cases h : k0 = k
    · subst h
      simp only [usersSet, if_true, List.map_cons, List.mem_cons]
      tauto
    · simp only [usersSet, if_neg h, List.map_cons, List.mem_cons, ih]
      tauto

theorem usersSet_keys_nodup (u : List (ConnId × Session)) (k : ConnId) (v : Session)
    (h : (u.map Prod.fst).Nodup) : ((usersSet u k v).map Prod.fst).Nodup := by
  induction u with
  | nil => simp [usersSet]
  | cons kv rest ih =>
    obtain ⟨k0, w⟩ := kv
    simp only [List.map_cons, List.nodup_cons] at h
    by_cases hk : k0 = k
    · subst hk
      simpa [usersSet] using h
    · simp only [usersSet, if_neg hk, List.map_cons, List.nodup_cons]
      refine ⟨?_, ih h.2⟩
      intro hmem
      rcases (usersSet_keys_mem rest k v k0).1 hmem with h1 | h1
      · exact hk h1
      · exact h.1 h1

theorem usersSet_ids (u : List (ConnId × Session)) (k : ConnId) (v : Session)
    (h : ∀ kv ∈ u, kv.2.id = kv.1) (hv : v.id = k) :
    ∀ kv ∈ usersSet u k v, kv.2.id = kv.1 := by
  induction u with
  | nil =>
    intro kv hkv
    simp only [usersSet, List.mem_singleton] at hkv
    subst hkv
    exact hv
  | cons kv0 rest ih =>
    obtain ⟨k0, w⟩ := kv0
    intro kv hkv
    by_cases hk : k0 = k
    · simp only [usersSet, if_pos hk, List.mem_cons] at hkv
      rcases hkv with h1 | h1
      · subst h1
        exact hv
      · exact h kv (List.mem_cons_of_mem _ h1)
    · simp only [usersSet, if_neg hk, List.mem_cons] at hkv
      rcases hkv with h1 | h1
      · subst h1
        exact h _ (List.mem_cons_self _ _)
      · exact ih (fun x hx => h x (List.mem_cons_of_mem _ hx)) kv h1

theorem usersDelete_keys_mem (u : List (ConnId × Session)) (k c : ConnId) :
    c ∈ (usersDelete u k).map Prod.fst ↔ c ≠ k ∧ c ∈ u.map Prod.fst := by
  simp only [usersDelete, List.mem_map, List.mem_filter, bne_iff_ne, ne_eq]
  constructor
  · rintro ⟨kv, ⟨hmem, hne⟩, rfl⟩
    exact ⟨hne, kv, hmem, rfl⟩
  · rintro ⟨hne, kv, hmem, rfl⟩
    exact ⟨kv, ⟨hmem, hne⟩, rfl⟩

theorem usersDelete_keys_nodup (u : List (ConnId × Session)) (k : ConnId)
    (h : (u.map Prod.fst).Nodup) : ((usersDelete u k).map Prod.fst).Nodup := by
  unfold usersDelete
  exact (List.Nodup.sublist (List.Sublist.map _ (List.filter_sublist _)) h)

theorem usersDelete_ids (u : List (ConnId × Session)) (k : ConnId)
    (h : ∀ kv ∈ u, kv.2.id = kv.1) : ∀ kv ∈ usersDelete u k, kv.2.id = kv.1 := by
  intro kv hkv
  exact h kv (List.mem_of_mem_filter hkv)

theorem snapshotIds_eq_keys (s : ServerState) (h : ∀ kv ∈ s.users, kv.2.id = kv.1) :
    snapshotIds s = s.users.map Prod.fst := by
  simp only [snapshotIds, objectValues, List.map_map]
  exact List.map_congr_left fun kv hkv => h kv hkv

/-! ## Lemmas on the emit primitives -/

theorem stateAB_reached :
    ∃ outs, run asciiUpper ServerState.init twoJoined = .ok (stateAB, outs) :=
  ⟨_, rfl⟩

theorem received_ioEmit (sockets : List ConnId) (ev : OutEvent) (c : ConnId)
    (hnd : sockets.Nodup) :
    received (ioEmit sockets ev) c = if c ∈ sockets then [ev] else [] := by
  induction sockets with
  | nil => simp [received, ioEmit]
  | cons a rest ih =>
    simp only [List.nodup_cons] at hnd
    have ih1 := ih hnd.2
    simp only [received, ioEmit] at ih1
    by_cases hac : a = c
    · subst hac
      simp only [received, ioEmit, List.map_cons, List.filter_cons, decide_True, if_true,
        List.mem_cons, true_or]
      rw [ih1, if_neg hnd.1]
    · have hca : ¬ c = a := fun e => hac e.symm
      simp only [received, ioEmit, List.map_cons, List.filter_cons, hac, decide_False,
        List.mem_cons, hca, false_or]
      simpa using ih1

theorem roomTargets_str (sockets : List ConnId) (t : ConnId) (hnd : sockets.Nodup) :
    roomTargets sockets (.str t) = if t ∈ sockets then [t] else [] := by
  induction sockets with
  | nil => simp [roomTargets]
  | cons a rest ih =>
    simp only [List.nodup_cons] at hnd
    have ih1 := ih hnd.2
    simp only [roomTargets] at ih1
    by_cases hat : a = t
    · subst hat
      simp only [roomTargets, List.filter_cons, beq_self_eq_true, if_true, List.mem_cons,
        true_or]
      rw [ih1, if_neg hnd.1]
    · have hta : ¬ t = a := fun e => hat e.symm
      simp only [roomTargets, List.filter_cons, List.mem_cons, hta, false_or]
      rw [ih1]
      simp [hat]

theorem roomTargets_str_absent (sockets : List ConnId) (t : ConnId) (h : t ∉ sockets) :
    roomTargets sockets (.str t) = [] := by
  simp only [roomTargets, List.filter_eq_nil_iff, beq_iff_eq]
  intro c hc hct
  exact h (hct ▸ hc)

theorem trim_eq_nil (text : JSString) (h : ∀ c ∈ text, isWhiteSpace c = true) :
    trim text = [] := by
  have h1 : text.dropWhile isWhiteSpace = [] := by
    rw [List.dropWhile_eq_nil_iff]
    exact h
  simp [trim, h1]

theorem setAdd_nodup (l : List ConnId) (c : ConnId) (h : l.Nodup) : (setAdd l c).Nodup := by
  unfold setAdd
  split
  · exact h
  · next hc =>
    rw [List.nodup_append]
    refine ⟨h, List.nodup_singleton c, ?_⟩
    intro x hx hy
    simp only [List.mem_singleton] at hy
    exact hc (hy ▸ hx)

theorem received_broadcast (sockets : List ConnId) (sid : ConnId) (ev : OutEvent) (c : ConnId)
    (hnd : sockets.Nodup) :
    received (socketBroadcastEmit sockets sid ev) c =
      if c ∈ sockets ∧ c ≠ sid then [ev] else [] := by
  have h : socketBroadcastEmit sockets sid ev = ioEmit (sockets.filter fun x => x != sid) ev :=
    rfl
  rw [h, received_ioEmit _ ev c (List.Nodup.filter _ hnd)]
  simp only [List.mem_filter, bne_iff_ne, ne_eq]

theorem truthy_trim (text : JSString) (h : trim text ≠ []) :
    (JSVal.str (trim text)).truthy = true := by
  cases h1 : trim text with
  | nil => exact absurd h1 h
  | cons a l => rfl

theorem onDm_ok (s : ServerState) (A : ConnId) (clk : Clock) (p : JSVal) (t text : JSString)
    (sess : Session) (hreg : usersGet s.users A = some sess) (hp : p.isNullish = false)
    (hto : p.prop (utf16 "to") = .str t) (hm : p.prop (utf16 "message") = .str text)
    (htext : trim text ≠ []) :
    onDm s A clk p =
      .ok (s, ioToEmit s.sockets (.str t)
                (.dm (.str A) { id := clk.id, text := .str text, sender := sess.name,
                                senderId := sess.deviceKey, avatar := sess.avatar,
                                timestamp := clk.timestamp }) ++
              [{ dest := A,
                 event := .dm (.str t) { id := clk.id, text := .str text, sender := sess.name,
                                         senderId := sess.deviceKey, avatar := sess.avatar,
                                         timestamp := clk.timestamp } }]) := by
  simp only [onDm, hp, hto, hm, hreg, callTrim, truthy_trim text htext]
  rfl

/-! ## The registry along a trace -/

theorem onJoin_ok (upper : JSString → JSString) (s : ServerState) (sid : ConnId) (p : JSVal)
    (name : JSString) (hp : p.isNullish = false) (hn : p.prop (utf16 "username") = .str name) :
    ∃ sess : Session, sess.id = sid ∧ sess.name = .str name ∧
      sess.deviceKey = p.prop (utf16 "deviceKey") ∧
      getRandomAvatar upper (.str name) = .ok sess.avatar ∧
      onJoin upper s sid p =
        .ok ({ s with users := usersSet s.users sid sess },
             ioEmit s.sockets (.users (objectValues (usersSet s.users sid sess)))) := by
  refine ⟨{ id := sid, name := .str name, deviceKey := p.prop (utf16 "deviceKey"),
            avatar := _, online := true }, rfl, rfl, rfl, rfl, ?_⟩
  simp only [onJoin, hp, hn, getRandomAvatar]
  rfl

theorem isRegistryEvent_cases (i : Inbound) (h : isRegistryEvent i = true) :
    (∃ p name, i.event = .join p ∧ p.isNullish = false ∧
      p.prop (utf16 "username") = .str name) ∨ i.event = .disconnect ∨ i.event = .connect := by
  unfold isRegistryEvent at h
  split at h
  · next hev => exact Or.inr (Or.inr hev)
  · next payload hev =>
    left
    simp only [Bool.and_eq_true, Bool.not_eq_true'] at h
    obtain ⟨h1, h2⟩ := h
    split at h2
    · next name hname => exact ⟨payload, name, hev, h1, hname⟩
    · exact absurd h2 (by decide)
  · next hev => exact Or.inr (Or.inl hev)
  · exact absurd h (by decide)

theorem run_registry (upper : JSString → JSString) (tr : List Inbound) :
    ∀ (s : ServerState) (acc : ConnId → Bool),
      (∀ i ∈ tr, isRegistryEvent i = true) →
      (s.users.map Prod.fst).Nodup → (∀ kv ∈ s.users, kv.2.id = kv.1) →
      (∀ c, c ∈ s.users.map Prod.fst ↔ acc c = true) →
      ∃ s1 outs, run upper s tr = .ok (s1, outs) ∧
        (s1.users.map Prod.fst).Nodup ∧ (∀ kv ∈ s1.users, kv.2.id = kv.1) ∧
        ∀ c, c ∈ s1.users.map Prod.fst ↔ joinedAfter c (acc c) tr = true := by
  induction tr with
  | nil =>
    intro s acc _ hnd hid hacc
    exact ⟨s, [], rfl, hnd, hid, fun c => by simpa [joinedAfter] using hacc c⟩
  | cons i rest ih =>
    intro s acc hev hnd hid hacc
    have hrest : ∀ j ∈ rest, isRegistryEvent j = true :=
      fun j hj => hev j (List.mem_cons_of_mem _ hj)
    rcases isRegistryEvent_cases i (hev i (List.mem_cons_self _ _)) with
      ⟨p, name, hjoin, hp, hn⟩ | hdis | hcon
    · obtain ⟨sess, hsid, _, _, _, hstep⟩ := onJoin_ok upper s i.socket p name hp hn
      have hstep1 : step upper s i = .ok ({ s with users := usersSet s.users i.socket sess },
          ioEmit s.sockets (.users (objectValues (usersSet s.users i.socket sess)))) := by
        simp only [step, hjoin]
        exact hstep
      obtain ⟨s1, outs, hrun, h1, h2, h3⟩ :=
        ih { s with users := usersSet s.users i.socket sess }
          (fun c => if i.socket = c then true else acc c) hrest
          (usersSet_keys_nodup _ _ _ hnd) (usersSet_ids _ _ _ hid hsid)
          (fun c => by
            simp only [usersSet_keys_mem]
            by_cases hc : i.socket = c
            · simp [hc]
            · simp only [if_neg hc, ← hacc c]
              constructor
              · rintro (h | h)
                · exact absurd h.symm hc
                · exact h
              · exact Or.inr)
      refine ⟨s1, ioEmit s.sockets (.users (objectValues (usersSet s.users i.socket sess)))
        :: outs, ?_, h1, h2, ?_⟩
      · simp only [run, hstep1, hrun]
      · intro c
        rw [h3 c]
        simp only [joinedAfter, hjoin]
    · have hstep1 : step upper s i =
          .ok ({ s with sockets := s.sockets.filter fun c => c != i.socket,
                        users := usersDelete s.users i.socket,
                        typingUsers := setDelete s.typingUsers i.socket },
               ioEmit (s.sockets.filter fun c => c != i.socket)
                 (.users (objectValues (usersDelete s.users i.socket)))) := by
        simp only [step, hdis, onDisconnect]
      obtain ⟨s1, outs, hrun, h1, h2, h3⟩ :=
        ih { s with sockets := s.sockets.filter fun c => c != i.socket,
                    users := usersDelete s.users i.socket,
                    typingUsers := setDelete s.typingUsers i.socket }
          (fun c => if i.socket = c then false else acc c) hrest
          (usersDelete_keys_nodup _ _ hnd) (usersDelete_ids _ _ hid)
          (fun c => by
            simp only [usersDelete_keys_mem]
            by_cases hc : i.socket = c
            · simp [hc]
            · simp only [if_neg hc, ← hacc c]
              constructor
              · exact fun h => h.2
              · exact fun h => ⟨fun h1 => hc h1.symm, h⟩)
      refine ⟨s1, ioEmit (s.sockets.filter fun c => c != i.socket)
        (.users (objectValues (usersDelete s.users i.socket))) :: outs, ?_, h1, h2, ?_⟩
      · simp only [run, hstep1, hrun]
      · intro c
        rw [h3 c]
        simp only [joinedAfter, hdis]
    · have hstep1 : step upper s i =
          .ok ({ s with sockets := setAdd s.sockets i.socket }, []) := by
        simp only [step, hcon]
      obtain ⟨s1, outs, hrun, h1, h2, h3⟩ :=
        ih { s with sockets := setAdd s.sockets i.socket } acc hrest hnd hid hacc
      refine ⟨s1, [] :: outs, ?_, h1, h2, ?_⟩
      · simp only [run, hstep1, hrun]
      · intro c
        rw [h3 c]
        simp only [joinedAfter, hcon, ite_self]

/-! ## Helper lemmas on the handlers -/

theorem event_ioEmit (sockets : List ConnId) (ev : OutEvent) :
    ∀ d ∈ ioEmit sockets ev, d.event = ev := by
  intro d hd
  simp only [ioEmit, List.mem_map] at hd
  obtain ⟨c, _, rfl⟩ := hd
  rfl

theorem event_ioToEmit (sockets : List ConnId) (room : JSVal) (ev : OutEvent) :
    ∀ d ∈ ioToEmit sockets room ev, d.event = ev := by
  intro d hd
  simp only [ioToEmit, List.mem_map] at hd
  obtain ⟨c, _, rfl⟩ := hd
  rfl

theorem event_broadcast (sockets : List ConnId) (sid : ConnId) (ev : OutEvent) :
    ∀ d ∈ socketBroadcastEmit sockets sid ev, d.event = ev := by
  intro d hd
  simp only [socketBroadcastEmit, List.mem_map] at hd
  obtain ⟨c, _, rfl⟩ := hd
  rfl

theorem no_users_of_ok (s s1 : ServerState) (outs0 outs : List Delivery)
    (h : (Except.ok (s, outs0) : Outcome) = .ok (s1, outs))
    (h0 : ∀ d ∈ outs0, d.event.isUsers = false) : ∀ d ∈ outs, d.event.isUsers = false := by
  simp only [Except.ok.injEq, Prod.mk.injEq] at h
  rw [← h.2]
  exact h0

theorem no_users_nil : ∀ d ∈ ([] : List Delivery), d.event.isUsers = false :=
  fun _ hd => nomatch hd

theorem no_users_ioToEmit (sockets : List ConnId) (room : JSVal) (ev : OutEvent)
    (hev : ev.isUsers = false) : ∀ d ∈ ioToEmit sockets room ev, d.event.isUsers = false := by
  intro d hd
  rw [event_ioToEmit sockets room ev d hd]
  exact hev

theorem step_other_no_users (upper : JSString → JSString) (s : ServerState) (i : Inbound)
    (hj : ∀ p, i.event ≠ .join p) (hd : i.event ≠ .disconnect)
    (s1 : ServerState) (outs : List Delivery) (h : step upper s i = .ok (s1, outs)) :
    ∀ d ∈ outs, d.event.isUsers = false := by
  cases hev : i.event with
  | connect =>
    simp only [step, hev] at h
    exact no_users_of_ok _ _ _ _ h no_users_nil
  | join p => exact absurd hev (hj p)
  | disconnect => exact absurd hev hd
  | message p =>
    simp only [step, hev, onMessage] at h
    split at h
    · exact no_users_of_ok _ _ _ _ h no_users_nil
    · split at h
      · cases h
      · split at h
        · refine no_users_of_ok _ _ _ _ h fun d hd => ?_
          rw [event_ioEmit _ _ d hd]
          rfl
        · exact no_users_of_ok _ _ _ _ h no_users_nil
  | dm p =>
    simp only [step, hev, onDm] at h
    split at h
    · cases h
    · split at h
      · exact no_users_of_ok _ _ _ _ h no_users_nil
      · split at h
        · cases h
        · split at h
          · refine no_users_of_ok _ _ _ _ h fun d hd => ?_
            rcases List.mem_append.1 hd with h1 | h1
            · rw [event_ioToEmit _ _ _ d h1]
              rfl
            · simp only [socketEmit, List.mem_singleton] at h1
              rw [h1]
              rfl
          · exact no_users_of_ok _ _ _ _ h no_users_nil
  | typing p =>
    simp only [step, hev, onTyping] at h
    split at h
    · exact no_users_of_ok _ _ _ _ h no_users_nil
    · refine no_users_of_ok _ _ _ _ h fun d hd => ?_
      rw [event_broadcast _ _ _ d hd]
      rfl
  | callOffer p =>
    simp only [step, hev, onCallOffer] at h
    split at h
    · cases h
    · split at h
      · exact no_users_of_ok _ _ _ _ h no_users_nil
      · exact no_users_of_ok _ _ _ _ h (no_users_ioToEmit _ _ _ rfl)
  | callAnswer p =>
    simp only [step, hev, onCallAnswer] at h
    split at h
    · cases h
    · exact no_users_of_ok _ _ _ _ h (no_users_ioToEmit _ _ _ rfl)
  | iceCandidate p =>
    simp only [step, hev, onIceCandidate] at h
    split at h
    · cases h
    · exact no_users_of_ok _ _ _ _ h (no_users_ioToEmit _ _ _ rfl)
  | callEnded p =>
    simp only [step, hev, onCallEnded] at h
    split at h
    · cases h
    · exact no_users_of_ok _ _ _ _ h (no_users_ioToEmit _ _ _ rfl)

theorem ioToEmit_str (sockets : List ConnId) (t : ConnId) (ev : OutEvent)
    (hnd : sockets.Nodup) :
    ioToEmit sockets (.str t) ev = if t ∈ sockets then [{ dest := t, event := ev }] else [] := by
  simp only [ioToEmit, roomTargets_str sockets t hnd]
  split <;> rfl

theorem usersGet_usersDelete_self (u : List (ConnId × Session)) (k : ConnId) :
    usersGet (usersDelete u k) k = none := by
  induction u with
  | nil => rfl
  | cons kv rest ih =>
    obtain ⟨k0, w⟩ := kv
    simp only [usersGet, usersDelete] at ih
    by_cases h : k0 = k
    · subst h
      simpa [usersGet, usersDelete, List.filter_cons] using ih
    · have h1 : (k == k0) = false := by
        simp only [beq_eq_false_iff_ne, ne_eq]
        exact fun e => h e.symm
      simp only [usersGet, usersDelete, List.filter_cons, bne_iff_ne, ne_eq, h,
        not_false_eq_true, decide_True, if_true, List.lookup, h1]
      simpa using ih

theorem onCallOffer_absent (s : ServerState) (sid t : ConnId) (p : JSVal)
    (hp : p.isNullish = false) (hto : p.prop (utf16 "to") = .str t) (ht : t ∉ s.sockets) :
    onCallOffer s sid p = .ok (s, []) := by
  simp only [onCallOffer, hp, hto]
  cases usersGet s.users sid with
  | none => rfl
  | some caller => simp [ioToEmit, roomTargets_str_absent s.sockets t ht]

theorem onCallOffer_unregistered (s : ServerState) (sid : ConnId) (p : JSVal)
    (hp : p.isNullish = false) (hreg : usersGet s.users sid = none) :
    onCallOffer s sid p = .ok (s, []) := by
  simp [onCallOffer, hp, hreg]

theorem sockets_of_ok (s s0 s1 : ServerState) (outs0 outs : List Delivery)
    (h : (Except.ok (s0, outs0) : Outcome) = .ok (s1, outs)) (h0 : s0.sockets = s.sockets) :
    s1.sockets = s.sockets := by
  simp only [Except.ok.injEq, Prod.mk.injEq] at h
  rw [← h.1]
  exact h0

theorem step_sockets (upper : JSString → JSString) (s : ServerState) (i : Inbound)
    (s1 : ServerState) (outs : List Delivery) (h : step upper s i = .ok (s1, outs)) :
    s1.sockets = s.sockets ∨ s1.sockets = setAdd s.sockets i.socket ∨
      s1.sockets = s.sockets.filter fun c => c != i.socket := by
  cases hev : i.event with
  | connect =>
    simp only [step, hev, Except.ok.injEq, Prod.mk.injEq] at h
    exact Or.inr (Or.inl (by rw [← h.1]))
  | disconnect =>
    simp only [step, hev, onDisconnect, Except.ok.injEq, Prod.mk.injEq] at h
    exact Or.inr (Or.inr (by rw [← h.1]))
  | join p =>
    left
    simp only [step, hev, onJoin] at h
    split at h
    · cases h
    · split at h
      · cases h
      · exact sockets_of_ok s _ _ _ _ h rfl
  | message p =>
    left
    simp only [step, hev, onMessage] at h
    split at h
    · exact sockets_of_ok s _ _ _ _ h rfl
    · split at h
      · cases h
      · split at h <;> exact sockets_of_ok s _ _ _ _ h rfl
  | dm p =>
    left
    simp only [step, hev, onDm] at h
    split at h
    · cases h
    · split at h
      · exact sockets_of_ok s _ _ _ _ h rfl
      · split at h
        · cases h
        · split at h <;> exact sockets_of_ok s _ _ _ _ h rfl
  | typing p =>
    left
    simp only [step, hev, onTyping] at h
    split at h <;> exact sockets_of_ok s _ _ _ _ h rfl
  | callOffer p =>
    left
    simp only [step, hev, onCallOffer] at h
    split at h
    · cases h
    · split at h <;> exact sockets_of_ok s _ _ _ _ h rfl
  | callAnswer p =>
    left
    simp only [step, hev, onCallAnswer] at h
    split at h
    · cases h
    · exact sockets_of_ok s _ _ _ _ h rfl
  | iceCandidate p =>
    left
    simp only [step, hev, onIceCandidate] at h
    split at h
    · cases h
    · exact sockets_of_ok s _ _ _ _ h rfl
  | callEnded p =>
    left
    simp only [step, hev, onCallEnded] at h
    split at h
    · cases h
    · exact sockets_of_ok s _ _ _ _ h rfl

theorem step_sockets_nodup (upper : JSString → JSString) (s : ServerState) (i : Inbound)
    (s1 : ServerState) (outs : List Delivery) (h : step upper s i = .ok (s1, outs))
    (hnd : s.sockets.Nodup) : s1.sockets.Nodup := by
  rcases step_sockets upper s i s1 outs h with h1 | h1 | h1
  · rw [h1]
    exact hnd
  · rw [h1]
    exact setAdd_nodup _ _ hnd
  · rw [h1]
    exact List.Nodup.filter _ hnd

theorem run_sockets_nodup (upper : JSString → JSString) (tr : List Inbound) :
    ∀ (s s1 : ServerState) (outs : List (List Delivery)),
      run upper s tr = .ok (s1, outs) → s.sockets.Nodup → s1.sockets.Nodup := by
  induction tr with
  | nil =>
    intro s s1 outs h hnd
    simp only [run, Except.ok.injEq, Prod.mk.injEq] at h
    rw [← h.1]
    exact hnd
  | cons i rest ih =>
    intro s s1 outs h hnd
    simp only [run] at h
    split at h
    · cases h
    · next s0 out hstep =>
      split at h
      · cases h
      · next s2 outs2 hrun =>
        simp only [Except.ok.injEq, Prod.mk.injEq] at h
        rw [← h.1]
        exact ih s0 s2 outs2 hrun (step_sockets_nodup upper s i s0 out hstep hnd)

theorem state_of_ok (s s1 : ServerState) (outs0 outs : List Delivery)
    (h : (Except.ok (s, outs0) : Outcome) = .ok (s1, outs)) :
    s1.users = s.users ∧ s1.typingUsers = s.typingUsers := by
  simp only [Except.ok.injEq, Prod.mk.injEq] at h
  rw [← h.1]
  exact ⟨rfl, rfl⟩

theorem step_effect (upper : JSString → JSString) (s : ServerState) (i : Inbound)
    (s1 : ServerState) (outs : List Delivery) (h : step upper s i = .ok (s1, outs)) :
    (∃ p sess, i.event = .join p ∧ s1.users = usersSet s.users i.socket sess ∧
        s1.typingUsers = s.typingUsers) ∨
    (i.event = .disconnect ∧ s1.users = usersDelete s.users i.socket ∧
        s1.typingUsers = setDelete s.typingUsers i.socket) ∨
    ((∀ p, i.event ≠ .join p) ∧ i.event ≠ .disconnect ∧ s1.users = s.users ∧
      (s1.typingUsers = s.typingUsers ∨
        s1.typingUsers = setDelete s.typingUsers i.socket ∨
        ((usersGet s.users i.socket).isSome = true ∧
          s1.typingUsers = setAdd s.typingUsers i.socket))) := by
  cases hev : i.event with
  | connect =>
    simp only [step, hev, Except.ok.injEq, Prod.mk.injEq] at h
    refine Or.inr (Or.inr ⟨fun p hp => (nomatch hp), fun hp => (nomatch hp), ?_, Or.inl ?_⟩) <;>
      rw [← h.1]
  | disconnect =>
    simp only [step, hev, onDisconnect, Except.ok.injEq, Prod.mk.injEq] at h
    refine Or.inr (Or.inl ⟨rfl, ?_, ?_⟩) <;> rw [← h.1]
  | join p =>
    simp only [step, hev, onJoin] at h
    split at h
    · cases h
    · split at h
      · cases h
      · next avatarData _ =>
        simp only [Except.ok.injEq, Prod.mk.injEq] at h
        refine Or.inl ⟨p, Session.mk i.socket (p.prop (utf16 "username"))
          (p.prop (utf16 "deviceKey")) avatarData true, rfl, ?_, ?_⟩
        · rw [← h.1]
        · rw [← h.1]
  | message p =>
    refine Or.inr (Or.inr ⟨fun q hq => (nomatch hq), fun hq => (nomatch hq), ?_⟩)
    simp only [step, hev, onMessage] at h
    split at h
    · exact ⟨(state_of_ok _ _ _ _ h).1, Or.inl (state_of_ok _ _ _ _ h).2⟩
    · split at h
      · cases h
      · split at h <;> exact ⟨(state_of_ok _ _ _ _ h).1, Or.inl (state_of_ok _ _ _ _ h).2⟩
  | dm p =>
    refine Or.inr (Or.inr ⟨fun q hq => (nomatch hq), fun hq => (nomatch hq), ?_⟩)
    simp only [step, hev, onDm] at h
    split at h
    · cases h
    · split at h
      · exact ⟨(state_of_ok _ _ _ _ h).1, Or.inl (state_of_ok _ _ _ _ h).2⟩
      · split at h
        · cases h
        · split at h <;> exact ⟨(state_of_ok _ _ _ _ h).1, Or.inl (state_of_ok _ _ _ _ h).2⟩
  | typing p =>
    refine Or.inr (Or.inr ⟨fun q hq => (nomatch hq), fun hq => (nomatch hq), ?_⟩)
    simp only [step, hev, onTyping] at h
    split at h
    · exact ⟨(state_of_ok _ _ _ _ h).1, Or.inl (state_of_ok _ _ _ _ h).2⟩
    · next user hreg =>
      simp only [Except.ok.injEq, Prod.mk.injEq] at h
      refine ⟨by rw [← h.1], ?_⟩
      by_cases ht : p.truthy = true
      · refine Or.inr (Or.inr ⟨by rw [hreg]; rfl, ?_⟩)
        rw [← h.1]
        simp only [ht, if_true]
      · refine Or.inr (Or.inl ?_)
        rw [← h.1]
        simp only [ht, if_false]
        rfl
  | callOffer p =>
    refine Or.inr (Or.inr ⟨fun q hq => (nomatch hq), fun hq => (nomatch hq), ?_⟩)
    simp only [step, hev, onCallOffer] at h
    split at h
    · cases h
    · split at h <;> exact ⟨(state_of_ok _ _ _ _ h).1, Or.inl (state_of_ok _ _ _ _ h).2⟩
  | callAnswer p =>
    refine Or.inr (Or.inr ⟨fun q hq => (nomatch hq), fun hq => (nomatch hq), ?_⟩)
    simp only [step, hev, onCallAnswer] at h
    split at h
    · cases h
    · exact ⟨(state_of_ok _ _ _ _ h).1, Or.inl (state_of_ok _ _ _ _ h).2⟩
  | iceCandidate p =>
    refine Or.inr (Or.inr ⟨fun q hq => (nomatch hq), fun hq => (nomatch hq), ?_⟩)
    simp only [step, hev, onIceCandidate] at h
    split at h
    · cases h
    · exact ⟨(state_of_ok _ _ _ _ h).1, Or.inl (state_of_ok _ _ _ _ h).2⟩
  | callEnded p =>
    refine Or.inr (Or.inr ⟨fun q hq => (nomatch hq), fun hq => (nomatch hq), ?_⟩)
    simp only [step, hev, onCallEnded] at h
    split at h
    · cases h
    · exact ⟨(state_of_ok _ _ _ _ h).1, Or.inl (state_of_ok _ _ _ _ h).2⟩

theorem usersGet_isSome_iff (u : List (ConnId × Session)) (k : ConnId) :
    (usersGet u k).isSome = true ↔ k ∈ u.map Prod.fst := by
  induction u with
  | nil => simp [usersGet, List.lookup]
  | cons kv rest ih =>
    obtain ⟨k0, w⟩ := kv
    simp only [usersGet] at ih
    by_cases h : k = k0
    · subst h
      simp [usersGet, List.lookup]
    · have h1 : (k == k0) = false := by
        simp only [beq_eq_false_iff_ne, ne_eq]
        exact h
      simp only [usersGet, List.lookup, h1, List.map_cons, List.mem_cons, h, false_or]
      exact ih

theorem mem_setAdd (l : List ConnId) (k c : ConnId) : c ∈ setAdd l k ↔ c ∈ l ∨ c = k := by
  unfold setAdd
  split
  · next hk =>
    constructor
    · exact Or.inl
    · rintro (h | h)
      · exact h
      · exact h ▸ hk
  · simp [List.mem_append]

theorem mem_setDelete (l : List ConnId) (k c : ConnId) :
    c ∈ setDelete l k ↔ c ∈ l ∧ c ≠ k := by
  simp [setDelete, List.mem_filter]

theorem step_invariants (upper : JSString → JSString) (s : ServerState) (i : Inbound)
    (s1 : ServerState) (outs : List Delivery) (h : step upper s i = .ok (s1, outs))
    (acc : ConnId → Bool) (hacc : ∀ c, c ∈ s.users.map Prod.fst ↔ acc c = true)
    (hty : ∀ c ∈ s.typingUsers, c ∈ s.users.map Prod.fst) :
    (∀ c, c ∈ s1.users.map Prod.fst ↔ joinedAfter c (acc c) [i] = true) ∧
    (∀ c ∈ s1.typingUsers, c ∈ s1.users.map Prod.fst) := by
  rcases step_effect upper s i s1 outs h with
    ⟨p, sess, hev, hu, ht⟩ | ⟨hev, hu, ht⟩ | ⟨hj, hd, hu, ht⟩
  · constructor
    · intro c
      rw [hu, usersSet_keys_mem]
      simp only [joinedAfter, hev]
      by_cases hc : i.socket = c
      · simp [hc]
      · simp only [if_neg hc, ← hacc c]
        constructor
        · rintro (h1 | h1)
          · exact absurd h1.symm hc
          · exact h1
        · exact Or.inr
    · intro c hc
      rw [hu, usersSet_keys_mem]
      rw [ht] at hc
      exact Or.inr (hty c hc)
  · constructor
    · intro c
      rw [hu, usersDelete_keys_mem]
      simp only [joinedAfter, hev]
      by_cases hc : i.socket = c
      · simp [hc]
      · simp only [if_neg hc, ← hacc c]
        constructor
        · exact fun h1 => h1.2
        · exact fun h1 => ⟨fun e => hc e.symm, h1⟩
    · intro c hc
      rw [ht, mem_setDelete] at hc
      rw [hu, usersDelete_keys_mem]
      exact ⟨hc.2, hty c hc.1⟩
  · constructor
    · intro c
      rw [hu, hacc c]
      simp only [joinedAfter, ite_self]
    · intro c hc
      rw [hu]
      rcases ht with ht | ht | ⟨hreg, ht⟩
      · rw [ht] at hc
        exact hty c hc
      · rw [ht, mem_setDelete] at hc
        exact hty c hc.1
      · rw [ht, mem_setAdd] at hc
        rcases hc with hc | hc
        · exact hty c hc
        · rw [hc]
          exact (usersGet_isSome_iff s.users i.socket).1 hreg

theorem joinedAfter_cons (c : ConnId) (b : Bool) (i : Inbound) (rest : List Inbound) :
    joinedAfter c b (i :: rest) = joinedAfter c (joinedAfter c b [i]) rest := rfl

theorem joinedAfter_append (c : ConnId) (tr1 tr2 : List Inbound) :
    ∀ b, joinedAfter c b (tr1 ++ tr2) = joinedAfter c (joinedAfter c b tr1) tr2 := by
  induction tr1 with
  | nil => intro b; rfl
  | cons i rest ih =>
    intro b
    simp only [List.cons_append, joinedAfter]
    exact ih _

theorem joinedAfter_no_join (c : ConnId) (tr : List Inbound)
    (h : ∀ i ∈ tr, i.socket = c → ∀ p, i.event ≠ .join p) : joinedAfter c false tr = false := by
  induction tr with
  | nil => rfl
  | cons i rest ih =>
    have hrest := ih fun j hj => h j (List.mem_cons_of_mem _ hj)
    have hi := h i (List.mem_cons_self _ _)
    simp only [joinedAfter]
    by_cases hc : i.socket = c
    · rw [if_pos hc]
      cases hev : i.event with
      | join p => exact absurd hev (hi hc p)
      | _ => exact hrest
    · rw [if_neg hc]
      exact hrest

theorem run_invariants (upper : JSString → JSString) (tr : List Inbound) :
    ∀ (s s1 : ServerState) (outs : List (List Delivery)) (acc : ConnId → Bool),
      run upper s tr = .ok (s1, outs) →
      (∀ c, c ∈ s.users.map Prod.fst ↔ acc c = true) →
      (∀ c ∈ s.typingUsers, c ∈ s.users.map Prod.fst) →
      (∀ c, c ∈ s1.users.map Prod.fst ↔ joinedAfter c (acc c) tr = true) ∧
      (∀ c ∈ s1.typingUsers, c ∈ s1.users.map Prod.fst) := by
  induction tr with
  | nil =>
    intro s s1 outs acc h hacc hty
    simp only [run, Except.ok.injEq, Prod.mk.injEq] at h
    rw [← h.1]
    exact ⟨fun c => by simpa [joinedAfter] using hacc c, hty⟩
  | cons i rest ih =>
    intro s s1 outs acc h hacc hty
    simp only [run] at h
    split at h
    · cases h
    · next s0 out hstep =>
      split at h
      · cases h
      · next s2 outs2 hrun =>
        simp only [Except.ok.injEq, Prod.mk.injEq] at h
        rw [← h.1]
        obtain ⟨h1, h2⟩ := step_invariants upper s i s0 out hstep acc hacc hty
        obtain ⟨h3, h4⟩ := ih s0 s2 outs2 (fun c => joinedAfter c (acc c) [i]) hrun h1 h2
        exact ⟨fun c => by rw [joinedAfter_cons]; exact h3 c, h4⟩

/-! ## The claims -/

/-- C1: from the empty registry, after any sequence of accepted join events and disconnect
events the run succeeds, the snapshot `Object.values(users)` holds no connection id twice
and holds exactly the ids that joined and did not disconnect since. -/
theorem C1_snapshot_exact (upper : JSString → JSString) (s : ServerState) (tr : List Inbound)
    (hs : s.users = []) (htr : ∀ i ∈ tr, isRegistryEvent i = true) :
    ∃ s1 outs, run upper s tr = .ok (s1, outs) ∧ (snapshotIds s1).Nodup ∧
      (∀ c, c ∈ snapshotIds s1 ↔ joinedNow tr c = true) ∧
      ∀ c, (snapshotIds s1).countP (fun x => decide (x = c)) =
        if joinedNow tr c = true then 1 else 0 := by
  obtain ⟨s1, outs, hrun, h1, h2, h3⟩ :=
    run_registry upper tr s (fun _ => false) htr (by simp [hs]) (by simp [hs]) (by simp [hs])
  have hmem : ∀ c, c ∈ snapshotIds s1 ↔ joinedNow tr c = true := by
    intro c
    rw [snapshotIds_eq_keys s1 h2]
    exact h3 c
  have hnd : (snapshotIds s1).Nodup := by
    rw [snapshotIds_eq_keys s1 h2]
    exact h1
  refine ⟨s1, outs, hrun, hnd, hmem, ?_⟩
  intro c
  by_cases hc : joinedNow tr c = true
  · rw [if_pos hc, countP_eq_of_nodup _ c hnd, if_pos ((hmem c).2 hc)]
  · rw [if_neg hc, countP_eq_of_nodup _ c hnd, if_neg (fun h => hc ((hmem c).1 h))]

/-- C1 at a concrete trace: A and B join, A joins a second time, A disconnects and the
unknown connection Z is removed; the snapshot then lists B once and nothing else. -/
theorem C1_snapshot_exact_witness :
    (∀ i ∈ twoJoined ++ [inbound connA (.join (joinPayload "k1" "Alicia")),
        inbound connA .disconnect, inbound connZ .disconnect], isRegistryEvent i = true) ∧
    ∃ s1 outs, run asciiUpper ServerState.init
        (twoJoined ++ [inbound connA (.join (joinPayload "k1" "Alicia")),
          inbound connA .disconnect, inbound connZ .disconnect]) = .ok (s1, outs) ∧
      (snapshotIds s1).Nodup ∧
      (∀ c, c ∈ snapshotIds s1 ↔
        joinedNow (twoJoined ++ [inbound connA (.join (joinPayload "k1" "Alicia")),
          inbound connA .disconnect, inbound connZ .disconnect]) c = true) ∧
      ∀ c, (snapshotIds s1).countP (fun x => decide (x = c)) =
        if joinedNow (twoJoined ++ [inbound connA (.join (joinPayload "k1" "Alicia")),
          inbound connA .disconnect, inbound connZ .disconnect]) c = true then 1 else 0 :=
  ⟨by decide, C1_snapshot_exact asciiUpper ServerState.init _ rfl (by decide)⟩

/-- C2: a `message` event from a registered, connected sender whose text is non-empty after
trimming yields one message object, received exactly once by every connected socket (the
sender included) and by no one else; its senderId, sender and avatar are the deviceKey,
name and avatar stored in the sender's session. -/
theorem C2_broadcast_message (upper : JSString → JSString) (s : ServerState) (A : ConnId)
    (clk : Clock) (text : JSString) (sess : Session)
    (hreg : usersGet s.users A = some sess) (htext : trim text ≠ [])
    (hconn : A ∈ s.sockets) (hnd : s.sockets.Nodup) :
    ∃ (m : Message) (outs : List Delivery),
      m.senderId = sess.deviceKey ∧ m.sender = sess.name ∧ m.avatar = sess.avatar ∧
      m.text = .str text ∧
      step upper s { socket := A, event := .message (.str text), clock := clk } = .ok (s, outs) ∧
      (∀ c, received outs c = if c ∈ s.sockets then [.message m] else []) ∧
      received outs A = [.message m] := by
  have hne : (trim text).isEmpty = false := by
    cases h : trim text with
    | nil => exact absurd h htext
    | cons a l => rfl
  let m : Message :=
    { id := clk.id, text := .str text, sender := sess.name, senderId := sess.deviceKey,
      avatar := sess.avatar, timestamp := clk.timestamp }
  refine ⟨m, ioEmit s.sockets (.message m), rfl, rfl, rfl, rfl, ?_, ?_, ?_⟩
  · simp [step, onMessage, hreg, callTrim, JSVal.truthy, hne]
  · intro c
    exact received_ioEmit s.sockets _ c hnd
  · rw [received_ioEmit s.sockets _ A hnd, if_pos hconn]

/-- C2 at a concrete state: A and B have joined, A sends the text "hi". -/
theorem C2_broadcast_message_witness :
    (usersGet stateAB.users connA = some sessionA ∧ trim (utf16 "hi") ≠ [] ∧
      connA ∈ stateAB.sockets ∧ stateAB.sockets.Nodup) ∧
    ∃ (m : Message) (outs : List Delivery),
      m.senderId = sessionA.deviceKey ∧ m.sender = sessionA.name ∧
      m.avatar = sessionA.avatar ∧ m.text = .str (utf16 "hi") ∧
      step asciiUpper stateAB
        { socket := connA, event := .message (.str (utf16 "hi")), clock := clock0 } =
        .ok (stateAB, outs) ∧
      (∀ c, received outs c = if c ∈ stateAB.sockets then [.message m] else []) ∧
      received outs connA = [.message m] :=
  ⟨⟨rfl, by decide, by decide, by decide⟩,
   C2_broadcast_message asciiUpper stateAB connA clock0 (utf16 "hi") sessionA rfl (by decide)
     (by decide) (by decide)⟩

/-- C3: a `message` event and a `dm` event whose text is empty or whitespace only produce
no delivery and leave the whole state (registry and typing set) unchanged, whoever the
sender and whatever the `to` field. -/
theorem C3_blank_text_dropped (upper : JSString → JSString) (s : ServerState) (A : ConnId)
    (clk : Clock) (text : JSString) (p : JSVal)
    (hblank : ∀ c ∈ text, isWhiteSpace c = true)
    (hp : p.isNullish = false) (hm : p.prop (utf16 "message") = .str text) :
    step upper s { socket := A, event := .message (.str text), clock := clk } = .ok (s, []) ∧
    step upper s { socket := A, event := .dm p, clock := clk } = .ok (s, []) := by
  have ht : trim text = [] := trim_eq_nil text hblank
  constructor
  · simp only [step, onMessage]
    cases usersGet s.users A with
    | none => rfl
    | some user => simp [callTrim, ht, JSVal.truthy]
  · simp only [step, onDm, hp, hm]
    cases usersGet s.users A with
    | none => rfl
    | some user => simp [callTrim, ht, JSVal.truthy]

/-- C3 at a concrete state: the registered sender A sends a text of a space, a tab and a
line feed, as a broadcast and as a directed message to B. -/
theorem C3_blank_text_dropped_witness :
    ((∀ c ∈ [32, 9, 10], isWhiteSpace c = true) ∧
      (JSVal.obj [(utf16 "to", .str connB), (utf16 "message", .str [32, 9, 10])]).isNullish
        = false ∧
      (JSVal.obj [(utf16 "to", .str connB), (utf16 "message", .str [32, 9, 10])]).prop
        (utf16 "message") = .str [32, 9, 10]) ∧
    step asciiUpper stateAB
      { socket := connA, event := .message (.str [32, 9, 10]), clock := clock0 } =
      .ok (stateAB, []) ∧
    step asciiUpper stateAB
      { socket := connA,
        event := .dm (.obj [(utf16 "to", .str connB), (utf16 "message", .str [32, 9, 10])]),
        clock := clock0 } = .ok (stateAB, []) :=
  ⟨⟨by decide, rfl, rfl⟩,
   C3_blank_text_dropped asciiUpper stateAB connA clock0 [32, 9, 10]
     (.obj [(utf16 "to", .str connB), (utf16 "message", .str [32, 9, 10])])
     (by decide) rfl rfl⟩

/-- C4 fails when the target is the sender itself: A, registered and connected, sends a
directed message to its own id and receives two `dm` events, not one. -/
theorem C4_self_target_counterexample :
    ∃ m : Message,
      step asciiUpper stateAB (inbound connA (.dm (dmPayload connA "hi"))) =
        .ok (stateAB, [{ dest := connA, event := .dm (.str connA) m },
                       { dest := connA, event := .dm (.str connA) m }]) ∧
      received [{ dest := connA, event := .dm (.str connA) m },
                { dest := connA, event := .dm (.str connA) m }] connA =
        [.dm (.str connA) m, .dm (.str connA) m] :=
  ⟨_, rfl, rfl⟩

/-- C4 (amended): a `dm` event from a registered sender A to a live target B, with a text
non-empty after trimming, yields two deliveries of the same message built from the session
of A: one to B tagged from A, then the echo to A tagged from B; the state is unchanged and
no other connection receives anything.  When B is another connection, B receives exactly
one `dm` tagged from A and A exactly one tagged from B; when B is A itself, A receives two
`dm` events, both tagged from A. -/
theorem C4_dm_delivered (upper : JSString → JSString) (s : ServerState) (A B : ConnId)
    (clk : Clock) (p : JSVal) (text : JSString) (sess : Session)
    (hreg : usersGet s.users A = some sess) (hB : B ∈ s.sockets)
    (hnd : s.sockets.Nodup) (hp : p.isNullish = false)
    (hto : p.prop (utf16 "to") = .str B) (hm : p.prop (utf16 "message") = .str text)
    (htext : trim text ≠ []) :
    ∃ (m : Message) (outs : List Delivery),
      m.text = .str text ∧ m.sender = sess.name ∧ m.senderId = sess.deviceKey ∧
      m.avatar = sess.avatar ∧
      step upper s { socket := A, event := .dm p, clock := clk } = .ok (s, outs) ∧
      outs = [{ dest := B, event := .dm (.str A) m }, { dest := A, event := .dm (.str B) m }] ∧
      (A ≠ B → received outs B = [.dm (.str A) m] ∧ received outs A = [.dm (.str B) m]) ∧
      (A = B → received outs A = [.dm (.str A) m, .dm (.str A) m]) ∧
      ∀ c, c ≠ A → c ≠ B → received outs c = [] := by
  let m : Message :=
    { id := clk.id, text := .str text, sender := sess.name, senderId := sess.deviceKey,
      avatar := sess.avatar, timestamp := clk.timestamp }
  have hstep : step upper s { socket := A, event := .dm p, clock := clk } =
      .ok (s, [{ dest := B, event := .dm (.str A) m }, { dest := A, event := .dm (.str B) m }]) := by
    simp only [step]
    rw [onDm_ok s A clk p B text sess hreg hp hto hm htext]
    simp only [ioToEmit, roomTargets_str s.sockets B hnd, if_pos hB, List.map_cons,
      List.map_nil, List.singleton_append, m]
  refine ⟨m, _, rfl, rfl, rfl, rfl, hstep, rfl, ?_, ?_, ?_⟩
  · intro hAB
    have hBA : ¬ B = A := fun e => hAB e.symm
    constructor
    · simp [received, hAB]
    · simp [received, hBA]
  · intro hAB
    subst hAB
    simp [received]
  · intro c hcA hcB
    have h1 : ¬ A = c := fun e => hcA e.symm
    have h2 : ¬ B = c := fun e => hcB e.symm
    simp [received, h1, h2]

/-- C4 (amended) at a concrete state: A sends "hi" to B. -/
theorem C4_dm_delivered_witness :
    (usersGet stateAB.users connA = some sessionA ∧ connB ∈ stateAB.sockets ∧
      stateAB.sockets.Nodup ∧ (dmPayload connB "hi").isNullish = false ∧
      (dmPayload connB "hi").prop (utf16 "to") = .str connB ∧
      (dmPayload connB "hi").prop (utf16 "message") = .str (utf16 "hi") ∧
      trim (utf16 "hi") ≠ []) ∧
    ∃ (m : Message) (outs : List Delivery),
      m.text = .str (utf16 "hi") ∧ m.sender = sessionA.name ∧
      m.senderId = sessionA.deviceKey ∧ m.avatar = sessionA.avatar ∧
      step asciiUpper stateAB
        { socket := connA, event := .dm (dmPayload connB "hi"), clock := clock0 } =
        .ok (stateAB, outs) ∧
      outs = [{ dest := connB, event := .dm (.str connA) m },
              { dest := connA, event := .dm (.str connB) m }] ∧
      (connA ≠ connB →
        received outs connB = [.dm (.str connA) m] ∧
        received outs connA = [.dm (.str connB) m]) ∧
      (connA = connB → received outs connA = [.dm (.str connA) m, .dm (.str connA) m]) ∧
      ∀ c, c ≠ connA → c ≠ connB → received outs c = [] :=
  ⟨⟨rfl, by decide, by decide, rfl, rfl, rfl, by decide⟩,
   C4_dm_delivered asciiUpper stateAB connA connB clock0 (dmPayload connB "hi") (utf16 "hi")
     sessionA rfl (by decide) (by decide) rfl rfl rfl (by decide)⟩

/-- C5: a `dm` event from a registered sender A to a connection id that is not live, with a
text non-empty after trimming, produces exactly one delivery: the echo to A tagged with
the target id; no other connection receives anything and the state is unchanged. -/
theorem C5_dm_offline_target (upper : JSString → JSString) (s : ServerState) (A T : ConnId)
    (clk : Clock) (p : JSVal) (text : JSString) (sess : Session)
    (hreg : usersGet s.users A = some sess) (hT : T ∉ s.sockets)
    (hp : p.isNullish = false)
    (hto : p.prop (utf16 "to") = .str T) (hm : p.prop (utf16 "message") = .str text)
    (htext : trim text ≠ []) :
    ∃ m : Message,
      m.text = .str text ∧ m.sender = sess.name ∧ m.senderId = sess.deviceKey ∧
      m.avatar = sess.avatar ∧
      step upper s { socket := A, event := .dm p, clock := clk } =
        .ok (s, [{ dest := A, event := .dm (.str T) m }]) ∧
      received [{ dest := A, event := .dm (.str T) m }] A = [.dm (.str T) m] ∧
      ∀ c, c ≠ A → received [{ dest := A, event := .dm (.str T) m }] c = [] := by
  let m : Message :=
    { id := clk.id, text := .str text, sender := sess.name, senderId := sess.deviceKey,
      avatar := sess.avatar, timestamp := clk.timestamp }
  refine ⟨m, rfl, rfl, rfl, rfl, ?_, ?_, ?_⟩
  · simp only [step]
    rw [onDm_ok s A clk p T text sess hreg hp hto hm htext]
    simp only [ioToEmit, roomTargets_str_absent s.sockets T hT, List.map_nil, List.nil_append, m]
  · simp [received]
  · intro c hc
    have h1 : ¬ A = c := fun e => hc e.symm
    simp [received, h1]

/-- C5 at a concrete state: A sends "hi" to the id Z, which is not connected. -/
theorem C5_dm_offline_target_witness :
    (usersGet stateAB.users connA = some sessionA ∧ connZ ∉ stateAB.sockets ∧
      (dmPayload connZ "hi").isNullish = false ∧
      (dmPayload connZ "hi").prop (utf16 "to") = .str connZ ∧
      (dmPayload connZ "hi").prop (utf16 "message") = .str (utf16 "hi") ∧
      trim (utf16 "hi") ≠ []) ∧
    ∃ m : Message,
      m.text = .str (utf16 "hi") ∧ m.sender = sessionA.name ∧
      m.senderId = sessionA.deviceKey ∧ m.avatar = sessionA.avatar ∧
      step asciiUpper stateAB
        { socket := connA, event := .dm (dmPayload connZ "hi"), clock := clock0 } =
        .ok (stateAB, [{ dest := connA, event := .dm (.str connZ) m }]) ∧
      received [{ dest := connA, event := .dm (.str connZ) m }] connA =
        [.dm (.str connZ) m] ∧
      ∀ c, c ≠ connA → received [{ dest := connA, event := .dm (.str connZ) m }] c = [] :=
  ⟨⟨rfl, by decide, rfl, rfl, rfl, by decide⟩,
   C5_dm_offline_target asciiUpper stateAB connA connZ clock0 (dmPayload connZ "hi")
     (utf16 "hi") sessionA rfl (by decide) rfl rfl rfl (by decide)⟩

/-- C6: a `typing` true event followed by a `typing` false event from a registered
connection A gives two `userTyping` broadcasts, the first with isTyping true and the second
with isTyping false, each carrying the id and the stored name of A and received exactly
once by every connected socket other than A and never by A; afterwards A is not in
`typingUsers`. -/
theorem C6_typing_on_then_off (upper : JSString → JSString) (s : ServerState) (A : ConnId)
    (clk1 clk2 : Clock) (sess : Session)
    (hreg : usersGet s.users A = some sess) (hnd : s.sockets.Nodup) :
    ∃ (s2 : ServerState) (outs1 outs2 : List Delivery),
      run upper s [{ socket := A, event := .typing (.bool true), clock := clk1 },
                   { socket := A, event := .typing (.bool false), clock := clk2 }] =
        .ok (s2, [outs1, outs2]) ∧
      (∀ c, received outs1 c =
        if c ∈ s.sockets ∧ c ≠ A then [.userTyping A sess.name (.bool true)] else []) ∧
      (∀ c, received outs2 c =
        if c ∈ s.sockets ∧ c ≠ A then [.userTyping A sess.name (.bool false)] else []) ∧
      received outs1 A = [] ∧ received outs2 A = [] ∧
      A ∉ s2.typingUsers ∧ s2.users = s.users ∧ s2.sockets = s.sockets := by
  refine ⟨{ s with typingUsers := setDelete (setAdd s.typingUsers A) A },
          socketBroadcastEmit s.sockets A (.userTyping A sess.name (.bool true)),
          socketBroadcastEmit s.sockets A (.userTyping A sess.name (.bool false)),
          ?_, ?_, ?_, ?_, ?_, ?_, rfl, rfl⟩
  · simp [run, step, onTyping, hreg, JSVal.truthy]
  · intro c
    exact received_broadcast s.sockets A _ c hnd
  · intro c
    exact received_broadcast s.sockets A _ c hnd
  · rw [received_broadcast s.sockets A _ A hnd]
    simp
  · rw [received_broadcast s.sockets A _ A hnd]
    simp
  · simp [setDelete]

/-- C6 at a concrete state: A types and stops while B is connected. -/
theorem C6_typing_on_then_off_witness :
    (usersGet stateAB.users connA = some sessionA ∧ stateAB.sockets.Nodup) ∧
    ∃ (s2 : ServerState) (outs1 outs2 : List Delivery),
      run asciiUpper stateAB
          [{ socket := connA, event := .typing (.bool true), clock := clock0 },
           { socket := connA, event := .typing (.bool false), clock := clock0 }] =
        .ok (s2, [outs1, outs2]) ∧
      (∀ c, received outs1 c =
        if c ∈ stateAB.sockets ∧ c ≠ connA then
          [.userTyping connA sessionA.name (.bool true)] else []) ∧
      (∀ c, received outs2 c =
        if c ∈ stateAB.sockets ∧ c ≠ connA then
          [.userTyping connA sessionA.name (.bool false)] else []) ∧
      received outs1 connA = [] ∧ received outs2 connA = [] ∧
      connA ∉ s2.typingUsers ∧ s2.users = stateAB.users ∧ s2.sockets = stateAB.sockets :=
  ⟨⟨rfl, by decide⟩,
   C6_typing_on_then_off asciiUpper stateAB connA clock0 clock0 sessionA rfl (by decide)⟩

/-- C7: every accepted join and every disconnect emits exactly one `users` broadcast, sent
to all connected sockets, whose payload is the snapshot of `users` after the mutation of
that event; no other event emits a `users` event.  In the run where A connects and joins,
B connects and joins and A disconnects, the three snapshots list A, then A and B, then B
alone, and B observes exactly two broadcasts. -/
theorem C7_presence_broadcast (upper : JSString → JSString) (s : ServerState) (i : Inbound) :
    ((∃ p name, i.event = .join p ∧ p.isNullish = false ∧
          p.prop (utf16 "username") = .str name) ∨ i.event = .disconnect →
      ∃ s1, step upper s i = .ok (s1, ioEmit s1.sockets (.users (objectValues s1.users))) ∧
        (s.sockets.Nodup → ∀ c, received (ioEmit s1.sockets (.users (objectValues s1.users))) c =
          if c ∈ s1.sockets then [.users (objectValues s1.users)] else [])) ∧
    ((∀ p, i.event ≠ .join p) → i.event ≠ .disconnect →
      ∀ s1 outs, step upper s i = .ok (s1, outs) → ∀ d ∈ outs, d.event.isUsers = false) ∧
    (∃ s3 o1 o2 o3,
      run upper ServerState.init (twoJoined ++ [inbound connA .disconnect]) =
        .ok (s3, [[], o1, [], o2, o3]) ∧
      usersPayloadIds (o1.map Delivery.event) = [[connA]] ∧
      usersPayloadIds (received o2 connA) = [[connA, connB]] ∧
      usersPayloadIds (received o2 connB) = [[connA, connB]] ∧
      usersPayloadIds (received o3 connB) = [[connB]] ∧
      snapshotIds s3 = [connB] ∧
      (received ([] ++ o1 ++ [] ++ o2 ++ o3) connB).length = 2 ∧
      usersPayloadIds (received ([] ++ o1 ++ [] ++ o2 ++ o3) connB) =
        [[connA, connB], [connB]]) := by
  refine ⟨?_, step_other_no_users upper s i, ⟨_, _, _, _, rfl, rfl, rfl, rfl, rfl, rfl, rfl, rfl⟩⟩
  rintro (⟨p, name, hjoin, hp, hn⟩ | hdis)
  · obtain ⟨sess, _, _, _, _, hstep⟩ := onJoin_ok upper s i.socket p name hp hn
    refine ⟨{ s with users := usersSet s.users i.socket sess }, ?_, ?_⟩
    · simp only [step, hjoin]
      exact hstep
    · intro hnd c
      exact received_ioEmit _ _ c hnd
  · refine ⟨{ s with sockets := s.sockets.filter fun c => c != i.socket,
                     users := usersDelete s.users i.socket,
                     typingUsers := setDelete s.typingUsers i.socket }, ?_, ?_⟩
    · simp only [step, hdis, onDisconnect]
    · intro hnd c
      exact received_ioEmit _ _ c (List.Nodup.filter _ hnd)

/-- C7 at concrete events: B disconnects from the state where A and B have joined, and A
joins again under another name. -/
theorem C7_presence_broadcast_witness :
    (∃ s1, step asciiUpper stateAB (inbound connB .disconnect) =
        .ok (s1, ioEmit s1.sockets (.users (objectValues s1.users))) ∧
      (stateAB.sockets.Nodup →
        ∀ c, received (ioEmit s1.sockets (.users (objectValues s1.users))) c =
          if c ∈ s1.sockets then [.users (objectValues s1.users)] else [])) ∧
    (∃ s1, step asciiUpper stateAB (inbound connA (.join (joinPayload "k1" "Alicia"))) =
        .ok (s1, ioEmit s1.sockets (.users (objectValues s1.users))) ∧
      (stateAB.sockets.Nodup →
        ∀ c, received (ioEmit s1.sockets (.users (objectValues s1.users))) c =
          if c ∈ s1.sockets then [.users (objectValues s1.users)] else [])) :=
  ⟨(C7_presence_broadcast asciiUpper stateAB (inbound connB .disconnect)).1 (Or.inr rfl),
   (C7_presence_broadcast asciiUpper stateAB
      (inbound connA (.join (joinPayload "k1" "Alicia")))).1
      (Or.inl ⟨joinPayload "k1" "Alicia", utf16 "Alicia", rfl, rfl, rfl⟩)⟩

/-- C8 fails when `to` is not a connection id: A sends `call-ended` with the empty array as
`to`; the array names no live connection, yet `io.to` with no room selects every socket and
both A and B receive `call-ended`. -/
theorem C8_empty_array_target_counterexample :
    step asciiUpper stateAB (inbound connA (.callEnded (.obj [(utf16 "to", .arr [])]))) =
      .ok (stateAB, [{ dest := connA, event := .callEnded },
                     { dest := connB, event := .callEnded }]) :=
  rfl

/-- C8 (amended): a call signal with a destructurable payload returns the state (registry
and typing set) unchanged.  When its `to` field is the connection id T, it is answered by
at most one delivery: an event of the same kind to T when T is connected, nothing when T is
not; the forwarded offer, answer and candidate are the payload values unchanged, and the
offer of a registered sender A also carries the id of A and the name stored for A, while
answer, candidate and end are forwarded for any sender.  For any value of `to` the event
goes to the sockets `io.to` selects: for a non-empty array the connected sockets whose id
it lists, for the empty array every connected socket, for any other non-string value
none. -/
theorem C8_call_signals_forwarded (upper : JSString → JSString) (s : ServerState)
    (A : ConnId) (clk : Clock) (p : JSVal)
    (hnd : s.sockets.Nodup) (hp : p.isNullish = false) :
    (∀ T, p.prop (utf16 "to") = .str T →
      (∀ sess, usersGet s.users A = some sess →
        step upper s { socket := A, event := .callOffer p, clock := clk } =
          .ok (s, if T ∈ s.sockets then
                    [{ dest := T, event := .callOffer A sess.name (p.prop (utf16 "offer")) }]
                  else [])) ∧
      (∀ S, step upper s { socket := S, event := .callAnswer p, clock := clk } =
        .ok (s, if T ∈ s.sockets then
                  [{ dest := T, event := .callAnswer (p.prop (utf16 "answer")) }]
                else [])) ∧
      (∀ S, step upper s { socket := S, event := .iceCandidate p, clock := clk } =
        .ok (s, if T ∈ s.sockets then
                  [{ dest := T, event := .iceCandidate (p.prop (utf16 "candidate")) }]
                else [])) ∧
      (∀ S, step upper s { socket := S, event := .callEnded p, clock := clk } =
        .ok (s, if T ∈ s.sockets then [{ dest := T, event := .callEnded }] else []))) ∧
    ((∀ sess, usersGet s.users A = some sess →
        step upper s { socket := A, event := .callOffer p, clock := clk } =
          .ok (s, ioToEmit s.sockets (p.prop (utf16 "to"))
                    (.callOffer A sess.name (p.prop (utf16 "offer"))))) ∧
      (∀ S, step upper s { socket := S, event := .callAnswer p, clock := clk } =
        .ok (s, ioToEmit s.sockets (p.prop (utf16 "to"))
                  (.callAnswer (p.prop (utf16 "answer"))))) ∧
      (∀ S, step upper s { socket := S, event := .iceCandidate p, clock := clk } =
        .ok (s, ioToEmit s.sockets (p.prop (utf16 "to"))
                  (.iceCandidate (p.prop (utf16 "candidate"))))) ∧
      (∀ S, step upper s { socket := S, event := .callEnded p, clock := clk } =
        .ok (s, ioToEmit s.sockets (p.prop (utf16 "to")) .callEnded))) ∧
    (∀ ev, ioToEmit s.sockets (.arr []) ev = ioEmit s.sockets ev) ∧
    (∀ r rs ev, ioToEmit s.sockets (.arr (r :: rs)) ev =
      ioEmit (s.sockets.filter fun c => namesRoom (r :: rs) c) ev) ∧
    (∀ v ev, v.isString = false → (∀ items, v ≠ .arr items) →
      ioToEmit s.sockets v ev = []) := by
  refine ⟨?_, ⟨?_, ?_, ?_, ?_⟩, fun ev => rfl, fun r rs ev => rfl, ?_⟩
  · intro T hto
    refine ⟨?_, ?_, ?_, ?_⟩
    · intro sess hreg
      simp only [step, onCallOffer, hp, hto, hreg, ioToEmit_str s.sockets T _ hnd]
      rfl
    · intro S
      simp only [step, onCallAnswer, hp, hto, ioToEmit_str s.sockets T _ hnd]
      rfl
    · intro S
      simp only [step, onIceCandidate, hp, hto, ioToEmit_str s.sockets T _ hnd]
      rfl
    · intro S
      simp only [step, onCallEnded, hp, hto, ioToEmit_str s.sockets T _ hnd]
      rfl
  · intro sess hreg
    simp only [step, onCallOffer, hp, hreg]
    rfl
  · intro S
    simp only [step, onCallAnswer, hp]
    rfl
  · intro S
    simp only [step, onIceCandidate, hp]
    rfl
  · intro S
    simp only [step, onCallEnded, hp]
    rfl
  · intro v ev hv harr
    cases v with
    | str x => exact absurd hv (by simp [JSVal.isString])
    | arr items => exact absurd rfl (harr items)
    | _ => rfl

/-- C8 (amended) at a concrete state: A sends an offer to the connected B; the offer object
reaches B unchanged, with the id and name of A. -/
theorem C8_call_signals_forwarded_witness :
    (stateAB.sockets.Nodup ∧ (offerPayload connB).isNullish = false ∧
      (offerPayload connB).prop (utf16 "to") = .str connB ∧
      usersGet stateAB.users connA = some sessionA) ∧
    step asciiUpper stateAB (inbound connA (.callOffer (offerPayload connB))) =
      .ok (stateAB,
        [{ dest := connB,
           event := .callOffer connA (.str (utf16 "Alice"))
             (.obj [(utf16 "type", .str (utf16 "offer")), (utf16 "sdp", .str (utf16 "v=0"))]) }]) :=
  ⟨⟨by decide, rfl, rfl, rfl⟩,
   ((C8_call_signals_forwarded asciiUpper stateAB connA clock0 (offerPayload connB)
      (by decide) rfl).1 connB rfl).1 sessionA rfl⟩

/-- C9 fails on the code: the registered caller A offers a call to the id Z, which is not
connected; the handler emits nothing, so A receives no failure or `call-ended` event. -/
theorem C9_offline_offer_counterexample :
    usersGet stateAB.users connA = some sessionA ∧ connZ ∉ stateAB.sockets ∧
    step asciiUpper stateAB (inbound connA (.callOffer (offerPayload connZ))) =
      .ok (stateAB, []) ∧
    received [] connA = [] :=
  ⟨rfl, by decide, rfl, rfl⟩

/-- C9 (amended): a `call-offer` event whose target id is not a live connection delivers no
event to anyone, the caller included, and leaves the state unchanged. -/
theorem C9_offline_offer_dropped (upper : JSString → JSString) (s : ServerState)
    (A T : ConnId) (clk : Clock) (p : JSVal)
    (hp : p.isNullish = false) (hto : p.prop (utf16 "to") = .str T) (hT : T ∉ s.sockets) :
    step upper s { socket := A, event := .callOffer p, clock := clk } = .ok (s, []) ∧
    ∀ c, received [] c = [] := by
  refine ⟨?_, fun c => rfl⟩
  simp only [step]
  exact onCallOffer_absent s A T p hp hto hT

/-- C9 (amended) at a concrete state: A offers a call to the id Z, which is not connected. -/
theorem C9_offline_offer_dropped_witness :
    ((offerPayload connZ).isNullish = false ∧
      (offerPayload connZ).prop (utf16 "to") = .str connZ ∧ connZ ∉ stateAB.sockets) ∧
    step asciiUpper stateAB
      { socket := connA, event := .callOffer (offerPayload connZ), clock := clock0 } =
      .ok (stateAB, []) ∧
    ∀ c, received [] c = [] :=
  ⟨⟨rfl, rfl, by decide⟩,
   C9_offline_offer_dropped asciiUpper stateAB connA connZ clock0 (offerPayload connZ)
     rfl rfl (by decide)⟩

/-- C10 fails on the code: A offers a call to B and then disconnects; all B receives from
the disconnect is the `users` broadcast, never a `call-ended` event, and the offer B then
sends to A is delivered to no one. -/
theorem C10_disconnect_mid_call_counterexample :
    ∃ s2 o1 o2,
      run asciiUpper stateAB
          [inbound connA (.callOffer (offerPayload connB)), inbound connA .disconnect,
           inbound connB (.callOffer (offerPayload connA))] = .ok (s2, [o1, o2, []]) ∧
      received o1 connB =
        [.callOffer connA (.str (utf16 "Alice"))
          (.obj [(utf16 "type", .str (utf16 "offer")), (utf16 "sdp", .str (utf16 "v=0"))])] ∧
      received o2 connB = [.users [sessionB]] ∧
      ((received (o1 ++ o2) connB).filter OutEvent.isCallEnded).length = 0 :=
  ⟨_, _, _, rfl, rfl, rfl, rfl⟩

/-- C10 (amended): let the registered A have sent a call-offer to B, answered by B or not,
both connected.  The server keeps no call record (offer and answer leave the state
unchanged).  When either party X then disconnects, the remaining party Y receives exactly
one event, the `users` broadcast with the snapshot after the removal, and no `call-ended`;
a call-offer between the two ids issued right afterwards, by Y to X or on behalf of X,
is delivered to no one. -/
theorem C10_disconnect_mid_call (upper : JSString → JSString) (s : ServerState)
    (A B : ConnId) (clk : Clock) (pOffer pAnswer : JSVal) (sess : Session)
    (hnd : s.sockets.Nodup) (hA : A ∈ s.sockets) (hB : B ∈ s.sockets) (hAB : A ≠ B)
    (hreg : usersGet s.users A = some sess)
    (hpo : pOffer.isNullish = false) (hto : pOffer.prop (utf16 "to") = .str B)
    (hpa : pAnswer.isNullish = false) (hta : pAnswer.prop (utf16 "to") = .str A)
    (withAnswer : Bool) (X Y : ConnId) (hXY : (X = A ∧ Y = B) ∨ (X = B ∧ Y = A)) :
    ∃ (s2 : ServerState) (oD : List Delivery),
      run upper s
          ([{ socket := A, event := .callOffer pOffer, clock := clk }] ++
            (if withAnswer = true then
              [{ socket := B, event := .callAnswer pAnswer, clock := clk }] else []) ++
            [{ socket := X, event := .disconnect, clock := clk }]) =
        .ok (s2,
          [[{ dest := B, event := .callOffer A sess.name (pOffer.prop (utf16 "offer")) }]] ++
            (if withAnswer = true then
              [[{ dest := A, event := .callAnswer (pAnswer.prop (utf16 "answer")) }]] else []) ++
            [oD]) ∧
      s2.users = usersDelete s.users X ∧
      received oD Y = [.users (objectValues s2.users)] ∧
      (∀ pFresh clk1, pFresh.isNullish = false → pFresh.prop (utf16 "to") = .str X →
        step upper s2 { socket := Y, event := .callOffer pFresh, clock := clk1 } =
          .ok (s2, [])) ∧
      (∀ pFresh clk1, pFresh.isNullish = false →
        step upper s2 { socket := X, event := .callOffer pFresh, clock := clk1 } =
          .ok (s2, [])) := by
  have hstepO : step upper s { socket := A, event := .callOffer pOffer, clock := clk } =
      .ok (s, [{ dest := B, event := .callOffer A sess.name (pOffer.prop (utf16 "offer")) }]) := by
    simp only [step, onCallOffer, hpo, hto, hreg, ioToEmit_str s.sockets B _ hnd, if_pos hB]
    rfl
  have hstepA : step upper s { socket := B, event := .callAnswer pAnswer, clock := clk } =
      .ok (s, [{ dest := A, event := .callAnswer (pAnswer.prop (utf16 "answer")) }]) := by
    simp only [step, onCallAnswer, hpa, hta, ioToEmit_str s.sockets A _ hnd, if_pos hA]
    rfl
  have hYX : Y ≠ X := by
    rcases hXY with ⟨rfl, rfl⟩ | ⟨rfl, rfl⟩
    · exact fun e => hAB e.symm
    · exact hAB
  have hY : Y ∈ s.sockets := by
    rcases hXY with ⟨rfl, rfl⟩ | ⟨rfl, rfl⟩
    · exact hB
    · exact hA
  have hXgone : X ∉ s.sockets.filter fun c => c != X := by
    simp [List.mem_filter]
  refine ⟨{ sockets := s.sockets.filter fun c => c != X,
            users := usersDelete s.users X,
            typingUsers := setDelete s.typingUsers X },
          ioEmit (s.sockets.filter fun c => c != X)
            (.users (objectValues (usersDelete s.users X))), ?_, rfl, ?_, ?_, ?_⟩
  · cases withAnswer
    · simp only [run, hstepO, List.singleton_append, List.nil_append,
        Bool.false_eq_true, if_false]
      simp only [run, step, onDisconnect]
    · simp only [run, hstepO, hstepA, List.singleton_append, if_true]
      simp only [run, step, onDisconnect]
      rfl
  · rw [received_ioEmit _ _ Y (List.Nodup.filter _ hnd)]
    have hmem : Y ∈ s.sockets.filter fun c => c != X := by
      simp only [List.mem_filter, bne_iff_ne, ne_eq]
      exact ⟨hY, hYX⟩
    rw [if_pos hmem]
  · intro pFresh clk1 hp1 hto1
    simp only [step]
    exact onCallOffer_absent _ Y X pFresh hp1 hto1 hXgone
  · intro pFresh clk1 hp1
    simp only [step]
    exact onCallOffer_unregistered _ X pFresh hp1 (usersGet_usersDelete_self s.users X)

/-- C10 (amended) at a concrete state: A offers a call to B, B answers, B disconnects. -/
theorem C10_disconnect_mid_call_witness :
    (stateAB.sockets.Nodup ∧ connA ∈ stateAB.sockets ∧ connB ∈ stateAB.sockets ∧
      connA ≠ connB ∧ usersGet stateAB.users connA = some sessionA ∧
      (offerPayload connB).isNullish = false ∧
      (offerPayload connB).prop (utf16 "to") = .str connB ∧
      (answerPayload connA).isNullish = false ∧
      (answerPayload connA).prop (utf16 "to") = .str connA ∧
      ((connB = connA ∧ connA = connB) ∨ (connB = connB ∧ connA = connA))) ∧
    ∃ (s2 : ServerState) (oD : List Delivery),
      run asciiUpper stateAB
          ([{ socket := connA, event := .callOffer (offerPayload connB), clock := clock0 }] ++
            (if true = true then
              [{ socket := connB, event := .callAnswer (answerPayload connA), clock := clock0 }]
             else []) ++
            [{ socket := connB, event := .disconnect, clock := clock0 }]) =
        .ok (s2,
          [[{ dest := connB,
              event := .callOffer connA sessionA.name
                ((offerPayload connB).prop (utf16 "offer")) }]] ++
            (if true = true then
              [[{ dest := connA,
                  event := .callAnswer ((answerPayload connA).prop (utf16 "answer")) }]]
             else []) ++
            [oD]) ∧
      s2.users = usersDelete stateAB.users connB ∧
      received oD connA = [.users (objectValues s2.users)] ∧
      (∀ pFresh clk1, pFresh.isNullish = false → pFresh.prop (utf16 "to") = .str connB →
        step asciiUpper s2 { socket := connA, event := .callOffer pFresh, clock := clk1 } =
          .ok (s2, [])) ∧
      (∀ pFresh clk1, pFresh.isNullish = false →
        step asciiUpper s2 { socket := connB, event := .callOffer pFresh, clock := clk1 } =
          .ok (s2, [])) :=
  ⟨⟨by decide, by decide, by decide, by decide, rfl, rfl, rfl, rfl, rfl, Or.inr ⟨rfl, rfl⟩⟩,
   C10_disconnect_mid_call asciiUpper stateAB connA connB clock0 (offerPayload connB)
     (answerPayload connA) sessionA (by decide) (by decide) (by decide) (by decide) rfl
     rfl rfl rfl rfl true connB connA (Or.inr ⟨rfl, rfl⟩)⟩

/-- C11 fails on the code: with A registered, a `message` whose text is a number, a `join`
without payload, a `join` without username, a `dm` without fields and a `call-offer`
without payload each make the handler throw a TypeError. -/
theorem C11_handler_throws_counterexample :
    step asciiUpper stateAB (inbound connA (.message (.num 5))) = .error .typeError ∧
    step asciiUpper stateAB (inbound connA (.join .undefined)) = .error .typeError ∧
    step asciiUpper stateAB
      (inbound connA (.join (.obj [(utf16 "deviceKey", .str (utf16 "k1"))]))) =
      .error .typeError ∧
    step asciiUpper stateAB (inbound connA (.dm (.obj []))) = .error .typeError ∧
    step asciiUpper stateAB (inbound connA (.callOffer .undefined)) = .error .typeError :=
  ⟨rfl, rfl, rfl, rfl, rfl⟩

/-- C11 (amended): a handler run completes without throwing, either dropping the event or
emitting, exactly when the payload is not rejected: `connect`, `typing` and `disconnect`
always complete; `join` needs a non-nullish payload with a string `username`; `message`
needs a string text unless the sender has no session; `dm` needs a non-nullish payload and
a string `message` unless the sender has no session; a call signal needs a non-nullish
payload.  On every other payload the handler throws a TypeError. -/
theorem C11_throws_exactly_on_rejected (upper : JSString → JSString) (s : ServerState) (i : Inbound) :
    (payloadRejected s i = false → ∃ s1 outs, step upper s i = .ok (s1, outs)) ∧
    (payloadRejected s i = true → step upper s i = .error .typeError) := by
  obtain ⟨sid, ev, clk⟩ := i
  cases ev with
  | connect => simp [payloadRejected, step]
  | disconnect => simp [payloadRejected, step, onDisconnect]
  | typing p =>
    simp only [payloadRejected, step, onTyping]
    cases usersGet s.users sid <;> simp
  | join p =>
    simp only [payloadRejected, step, onJoin]
    cases hn : p.isNullish
    · cases hu : p.prop (utf16 "username") <;> simp [getRandomAvatar, JSVal.isString]
    · simp
  | message p =>
    simp only [payloadRejected, step, onMessage]
    cases usersGet s.users sid with
    | none => simp
    | some user =>
      cases p <;> simp [callTrim, JSVal.isString]
      split <;> simp
  | dm p =>
    simp only [payloadRejected, step, onDm]
    cases hn : p.isNullish
    · cases usersGet s.users sid with
      | none => simp
      | some user =>
        cases hm : p.prop (utf16 "message") <;> simp [callTrim, JSVal.isString]
        split <;> simp
    · simp
  | callOffer p =>
    simp only [payloadRejected, step, onCallOffer]
    cases hn : p.isNullish
    · cases usersGet s.users sid <;> simp
    · simp
  | callAnswer p =>
    simp only [payloadRejected, step, onCallAnswer]
    cases hn : p.isNullish <;> simp
  | iceCandidate p =>
    simp only [payloadRejected, step, onIceCandidate]
    cases hn : p.isNullish <;> simp
  | callEnded p =>
    simp only [payloadRejected, step, onCallEnded]
    cases hn : p.isNullish <;> simp

/-- C11 (amended) at concrete events: a `typing` event with a numeric payload completes,
a `message` with a numeric text from the registered A throws. -/
theorem C11_throws_exactly_on_rejected_witness :
    (payloadRejected stateAB (inbound connA (.typing (.num 7))) = false ∧
      ∃ s1 outs, step asciiUpper stateAB (inbound connA (.typing (.num 7))) = .ok (s1, outs)) ∧
    (payloadRejected stateAB (inbound connA (.message (.num 5))) = true ∧
      step asciiUpper stateAB (inbound connA (.message (.num 5))) = .error .typeError) :=
  ⟨⟨rfl, (C11_throws_exactly_on_rejected asciiUpper stateAB
      (inbound connA (.typing (.num 7)))).1 rfl⟩,
   ⟨rfl, (C11_throws_exactly_on_rejected asciiUpper stateAB
      (inbound connA (.message (.num 5)))).2 rfl⟩⟩

/-- C12 fails on the code at two names.  For the empty display name `charCodeAt(0)` is NaN:
the color is not a palette color and the initial is empty.  For the name "ßen" the initial
is the two-character string "SS", the upper-casing of its first code unit. -/
theorem C12_avatar_counterexample :
    getRandomAvatar latin1Upper (.str []) = .ok { initial := [], color := .undefined } ∧
    getRandomAvatar latin1Upper (.str (utf16 "ßen")) =
      .ok { initial := utf16 "SS", color := .str (utf16 "#FFA07A") } ∧
    (utf16 "SS").length = 2 :=
  ⟨rfl, rfl, rfl⟩

/-- C12 (amended): for every non-empty display name, with first UTF-16 code unit `c`,
`getRandomAvatar` returns the avatar determined by the name alone whose initial is the
upper-casing of the one-unit string `c` and whose color is the palette entry at index
`c % 10`, one of the ten palette colors. -/
theorem C12_avatar_of_name (upper : JSString → JSString) (name : JSString) (c : Nat)
    (rest : List Nat) (hname : name = c :: rest) :
    ∃ col, colors.get? (c % 10) = some col ∧ col ∈ colors ∧ colors.length = 10 ∧
      getRandomAvatar upper (.str name) = .ok { initial := upper [c], color := .str col } := by
  have hlt : c % 10 < colors.length := Nat.mod_lt _ (by decide)
  have hget : colors.get? (c % 10) = some (colors.get ⟨c % 10, hlt⟩) := List.get?_eq_get hlt
  refine ⟨colors.get ⟨c % 10, hlt⟩, hget, List.get_mem _ _ _, rfl, ?_⟩
  subst hname
  have hlen : colors.length = 10 := rfl
  simp only [getRandomAvatar, List.head?_cons, hlen, hget, Option.map_some', Option.getD_some]
  rfl

/-- C12 (amended) at the name "Alice": first code unit 65, palette index 5. -/
theorem C12_avatar_of_name_witness :
    utf16 "Alice" = 65 :: utf16 "lice" ∧
    ∃ col, colors.get? (65 % 10) = some col ∧ col ∈ colors ∧ colors.length = 10 ∧
      getRandomAvatar latin1Upper (.str (utf16 "Alice")) =
        .ok { initial := latin1Upper [65], color := .str col } :=
  ⟨rfl, C12_avatar_of_name latin1Upper (utf16 "Alice") 65 (utf16 "lice") rfl⟩

/-- C13: when the connection C has no session in `users`, a `message` event with any text
value and a `dm` event with any non-nullish payload (any `to`, any text value) deliver
nothing to anyone, C included, and return the state, registry included, unchanged. -/
theorem C13_unregistered_sender_dropped (upper : JSString → JSString) (s : ServerState)
    (C : ConnId) (clk : Clock) (text p : JSVal)
    (hreg : usersGet s.users C = none) (hp : p.isNullish = false) :
    step upper s { socket := C, event := .message text, clock := clk } = .ok (s, []) ∧
    step upper s { socket := C, event := .dm p, clock := clk } = .ok (s, []) ∧
    (∀ c, received [] c = []) := by
  refine ⟨?_, ?_, fun c => rfl⟩
  · simp only [step, onMessage, hreg]
  · simp only [step, onDm, hp, hreg]
    rfl

/-- C13 at a concrete state: Z has no session; it sends the text "hi" as a broadcast and as
a directed message to A. -/
theorem C13_unregistered_sender_dropped_witness :
    (usersGet stateAB.users connZ = none ∧ (dmPayload connA "hi").isNullish = false) ∧
    step asciiUpper stateAB
      { socket := connZ, event := .message (.str (utf16 "hi")), clock := clock0 } =
      .ok (stateAB, []) ∧
    step asciiUpper stateAB
      { socket := connZ, event := .dm (dmPayload connA "hi"), clock := clock0 } =
      .ok (stateAB, []) ∧
    (∀ c, received [] c = []) :=
  ⟨⟨rfl, rfl⟩,
   C13_unregistered_sender_dropped asciiUpper stateAB connZ clock0 (.str (utf16 "hi"))
     (dmPayload connA "hi") rfl rfl⟩

/-- C14: in every state the server reaches from the empty state by a sequence of inbound
events, each id in `typingUsers` is a key of `users`, so it belongs to a connection that
joined and has not disconnected since; a connection that never joined is not in the typing
set, and neither is a connection whose disconnect was the last event. -/
theorem C14_typing_within_registry (upper : JSString → JSString) (tr : List Inbound)
    (s1 : ServerState) (outs : List (List Delivery))
    (h : run upper ServerState.init tr = .ok (s1, outs)) :
    (∀ c ∈ s1.typingUsers,
      c ∈ s1.users.map Prod.fst ∧ (usersGet s1.users c).isSome = true) ∧
    (∀ c ∈ s1.typingUsers, joinedNow tr c = true) ∧
    (∀ c, (∀ i ∈ tr, i.socket = c → ∀ p, i.event ≠ .join p) → c ∉ s1.typingUsers) ∧
    (∀ c tr0 clk, tr = tr0 ++ [{ socket := c, event := .disconnect, clock := clk }] →
      c ∉ s1.typingUsers) := by
  obtain ⟨hkeys, hty⟩ := run_invariants upper tr ServerState.init s1 outs (fun _ => false) h
    (fun c => by simp [ServerState.init]) (fun c hc => by simp [ServerState.init] at hc)
  have hjoined : ∀ c ∈ s1.typingUsers, joinedNow tr c = true :=
    fun c hc => (hkeys c).1 (hty c hc)
  refine ⟨fun c hc => ⟨hty c hc, (usersGet_isSome_iff s1.users c).2 (hty c hc)⟩, hjoined, ?_, ?_⟩
  · intro c hno hc
    have h1 := hjoined c hc
    rw [joinedNow, joinedAfter_no_join c tr hno] at h1
    exact absurd h1 (by decide)
  · intro c tr0 clk htr hc
    have h1 := hjoined c hc
    rw [joinedNow, htr, joinedAfter_append] at h1
    simp [joinedAfter] at h1

/-- C14 at a concrete trace: A and B join, both start typing, then A disconnects. -/
theorem C14_typing_within_registry_witness :
    ∃ s1 outs,
      run asciiUpper ServerState.init
          (twoJoined ++ [inbound connA (.typing (.bool true)),
            inbound connB (.typing (.bool true)), inbound connA .disconnect]) =
        .ok (s1, outs) ∧
      s1.typingUsers = [connB] ∧
      (∀ c ∈ s1.typingUsers,
        c ∈ s1.users.map Prod.fst ∧ (usersGet s1.users c).isSome = true) ∧
      (∀ c ∈ s1.typingUsers,
        joinedNow (twoJoined ++ [inbound connA (.typing (.bool true)),
          inbound connB (.typing (.bool true)), inbound connA .disconnect]) c = true) :=
  ⟨_, _, rfl, rfl,
   (C14_typing_within_registry asciiUpper
      (twoJoined ++ [inbound connA (.typing (.bool true)),
        inbound connB (.typing (.bool true)), inbound connA .disconnect]) _ _ rfl).1,
   (C14_typing_within_registry asciiUpper
      (twoJoined ++ [inbound connA (.typing (.bool true)),
        inbound connB (.typing (.bool true)), inbound connA .disconnect]) _ _ rfl).2.1⟩

end ChatApp
